import Mathlib

/-!
Shallow embedding of the `dantelion-formats` repository (a Rust library
decoding the BHD5 / DCX / BND4 / regulation binary formats) together with
proofs about its parsing and decryption routines.

Bytes are modelled as `Nat` (every value read from a real stream is < 256);
signed machine integers read from the stream are modelled as `Int` via the
usual two's-complement reinterpretation.  A positioned reader over a byte
buffer (`std::io::Cursor` in `bnd4.rs`, `binary_reader::BinaryReader` in
`bhd5.rs` / `dcx.rs`) is modelled by passing the immutable buffer to every
read and threading the position through; `seek`/`jmp` is using another
position.  Fallible Rust code returning `Result` or panicking is modelled
with `Option` (`none` covering both error returns and panics) except for
the crypto routines, where the distinction between an error return and a
panic matters and a four-way result type is used.  External cryptographic
primitives (OpenSSL RSA / AES) are modelled as abstract oracle parameters.
-/

namespace Dantelion

/-- Outcome of a Rust function where the distinction between a normal
error return (`Err`), a panic, and divergence matters. -/
inductive RResult (α : Type) where
  | ok : α → RResult α
  | err : RResult α
  | panic : RResult α
  | diverge : RResult α
deriving DecidableEq

/-- Byte of a buffer at an absolute index (used for `peek_u8`). -/
def byteAt (l : List Nat) (i : Nat) : Option Nat := l[i]?

/-- `read_u8`: one byte at the current position, advancing by 1.
Fails (`none`) past the end of the buffer. -/
def readU8 (data : List Nat) (p : Nat) : Option (Nat × Nat) :=
  match data[p]? with
  | some b => some (b, p + 1)
  | none => none

/-- `read_bytes n`: `n` consecutive bytes, advancing by `n`. -/
def readBytes (data : List Nat) : Nat → Nat → Option (List Nat × Nat)
  | 0, p => some ([], p)
  | n + 1, p => do
    let (b, p1) ← readU8 data p
    let (bs, p2) ← readBytes data n p1
    some (b :: bs, p2)

/-- Little-endian value of a byte list (first byte least significant). -/
def leVal (bs : List Nat) : Nat := bs.foldr (fun b acc => b + 256 * acc) 0

/-- Big-endian value of a byte list (first byte most significant). -/
def beVal (bs : List Nat) : Nat := bs.foldl (fun acc b => acc * 256 + b) 0

/-- Multi-byte unsigned read: `n` bytes combined under endianness `be`. -/
def readUInt (be : Bool) (n : Nat) (data : List Nat) (p : Nat) :
    Option (Nat × Nat) :=
  (readBytes data n p).map (fun q => (if be then beVal q.1 else leVal q.1, q.2))

def readU16 (be : Bool) : List Nat → Nat → Option (Nat × Nat) := readUInt be 2
def readU32 (be : Bool) : List Nat → Nat → Option (Nat × Nat) := readUInt be 4
def readU64 (be : Bool) : List Nat → Nat → Option (Nat × Nat) := readUInt be 8

/-- Two's-complement reinterpretation of a `w`-bit unsigned value. -/
def toSigned (w : Nat) (v : Nat) : Int :=
  if v < 2 ^ (w - 1) then (v : Int) else (v : Int) - ((2 ^ w : Nat) : Int)

def readI8 (data : List Nat) (p : Nat) : Option (Int × Nat) :=
  (readU8 data p).map (fun q => (toSigned 8 q.1, q.2))

def readI32 (be : Bool) (data : List Nat) (p : Nat) : Option (Int × Nat) :=
  (readU32 be data p).map (fun q => (toSigned 32 q.1, q.2))

def readI64 (be : Bool) (data : List Nat) (p : Nat) : Option (Int × Nat) :=
  (readU64 be data p).map (fun q => (toSigned 64 q.1, q.2))

/-- The Rust cast `i as usize` for a signed 64-bit-or-narrower value on a
64-bit target: negative values wrap modulo `2^64` (written with `Nat`
arithmetic on the two `Int` constructors so that it evaluates fast). -/
def intAsUsize (v : Int) : Nat :=
  match v with
  | Int.ofNat n => n % 18446744073709551616
  | Int.negSucc n => 18446744073709551616 - n % 18446744073709551616 - 1

theorem readU8_eq_some {data : List Nat} {p b p' : Nat}
    (h : readU8 data p = some (b, p')) :
    p < data.length ∧ data.getD p 0 = b ∧ p' = p + 1 := by
  unfold readU8 at h
  rcases hb : data[p]? with _ | x
  · rw [hb] at h; exact absurd h (by simp)
  · rw [hb] at h
    simp only [Option.some.injEq, Prod.mk.injEq] at h
    have hlt : p < data.length := by
      by_contra hge
      rw [List.getElem?_eq_none (by omega)] at hb
      exact absurd hb (by simp)
    rw [List.getElem?_eq_getElem hlt] at hb
    refine ⟨hlt, ?_, h.2.symm⟩
    rw [List.getD_eq_getElem data 0 hlt, Option.some.inj hb, h.1]

theorem readBytes_eq_some {data : List Nat} {n p : Nat} {bs : List Nat} {p' : Nat}
    (h : readBytes data n p = some (bs, p')) :
    bs = (data.drop p).take n ∧ p' = p + n := by
  induction n generalizing p bs p' with
  | zero =>
    unfold readBytes at h
    simp only [Option.some.injEq, Prod.mk.injEq] at h
    exact ⟨by simp [← h.1], by omega⟩
  | succ n ih =>
    unfold readBytes at h
    simp only [bind, Option.bind_eq_some] at h
    obtain ⟨⟨b, p1⟩, h1, h⟩ := h
    obtain ⟨⟨rest, p2⟩, h2, h⟩ := h
    simp only [Option.some.injEq, Prod.mk.injEq] at h
    obtain ⟨hb1, hc1, hp1⟩ := readU8_eq_some h1
    obtain ⟨hrest, hp2⟩ := ih h2
    subst hp1
    refine ⟨?_, by omega⟩
    rw [← h.1, hrest, ← hc1]
    have hdrop : data.drop p = data.getD p 0 :: data.drop (p + 1) := by
      rw [List.getD_eq_getElem data 0 hb1]
      exact List.drop_eq_getElem_cons hb1
    rw [hdrop]
    simp

theorem readUInt_eq_some {be : Bool} {data : List Nat} {n p v p' : Nat}
    (h : readUInt be n data p = some (v, p')) :
    v = (if be then beVal else leVal) ((data.drop p).take n) ∧ p' = p + n := by
  unfold readUInt at h
  simp only [Option.map_eq_some'] at h
  obtain ⟨⟨bs, p2⟩, hbs, hv⟩ := h
  obtain ⟨hbs', hp2⟩ := readBytes_eq_some hbs
  simp only [Prod.mk.injEq] at hv
  refine ⟨?_, by omega⟩
  cases be <;> simp_all

theorem readBytes_length {data : List Nat} {n p : Nat} {bs : List Nat} {p' : Nat}
    (h : readBytes data n p = some (bs, p')) : bs.length = n := by
  induction n generalizing p bs p' with
  | zero =>
    unfold readBytes at h
    simp only [Option.some.injEq, Prod.mk.injEq] at h
    simp [← h.1]
  | succ n ih =>
    unfold readBytes at h
    simp only [bind, Option.bind_eq_some] at h
    obtain ⟨⟨b, p1⟩, _, h⟩ := h
    obtain ⟨⟨rest, p2⟩, h2, h⟩ := h
    simp only [Option.some.injEq, Prod.mk.injEq] at h
    rw [← h.1]
    simp [ih h2]

theorem readBytes_bound {data : List Nat} {n p : Nat} {bs : List Nat} {p' : Nat}
    (h : readBytes data n p = some (bs, p')) : n = 0 ∨ p + n ≤ data.length := by
  have hl := readBytes_length h
  have hb := (readBytes_eq_some h).1
  rw [hb] at hl
  simp only [List.length_take, List.length_drop] at hl
  omega

theorem readUInt_bound {be : Bool} {data : List Nat} {n p v p' : Nat}
    (h : readUInt be n data p = some (v, p')) : n = 0 ∨ p + n ≤ data.length := by
  unfold readUInt at h
  simp only [Option.map_eq_some'] at h
  obtain ⟨⟨bs, p2⟩, hbs, _⟩ := h
  exact readBytes_bound hbs

theorem readU32_eq_some {be : Bool} {data : List Nat} {p v p' : Nat}
    (h : readU32 be data p = some (v, p')) :
    v = (if be then beVal else leVal) ((data.drop p).take 4) ∧ p' = p + 4 ∧
      p + 4 ≤ data.length := by
  have h' : readUInt be 4 data p = some (v, p') := h
  have := readUInt_eq_some h'
  have hb := readUInt_bound h'
  exact ⟨this.1, this.2, by omega⟩

theorem readU64_eq_some {be : Bool} {data : List Nat} {p v p' : Nat}
    (h : readU64 be data p = some (v, p')) :
    v = (if be then beVal else leVal) ((data.drop p).take 8) ∧ p' = p + 8 ∧
      p + 8 ≤ data.length := by
  have h' : readUInt be 8 data p = some (v, p') := h
  have := readUInt_eq_some h'
  have hb := readUInt_bound h'
  exact ⟨this.1, this.2, by omega⟩

theorem readU16_eq_some {be : Bool} {data : List Nat} {p v p' : Nat}
    (h : readU16 be data p = some (v, p')) :
    v = (if be then beVal else leVal) ((data.drop p).take 2) ∧ p' = p + 2 ∧
      p + 2 ≤ data.length := by
  have h' : readUInt be 2 data p = some (v, p') := h
  have := readUInt_eq_some h'
  have hb := readUInt_bound h'
  exact ⟨this.1, this.2, by omega⟩

theorem readI8_eq_some {data : List Nat} {p : Nat} {v : Int} {p' : Nat}
    (h : readI8 data p = some (v, p')) :
    v = toSigned 8 (data.getD p 0) ∧ p' = p + 1 ∧ p < data.length := by
  unfold readI8 at h
  simp only [Option.map_eq_some'] at h
  obtain ⟨⟨b, p2⟩, hb, hv⟩ := h
  obtain ⟨hlt, hgd, hp⟩ := readU8_eq_some hb
  simp only [Prod.mk.injEq] at hv
  exact ⟨by rw [← hv.1, hgd], by rw [← hv.2, hp], hlt⟩

theorem readI32_eq_some {be : Bool} {data : List Nat} {p : Nat} {v : Int} {p' : Nat}
    (h : readI32 be data p = some (v, p')) :
    v = toSigned 32 ((if be then beVal else leVal) ((data.drop p).take 4)) ∧
      p' = p + 4 ∧ p + 4 ≤ data.length := by
  unfold readI32 at h
  simp only [Option.map_eq_some'] at h
  obtain ⟨⟨u, p2⟩, hu, hv⟩ := h
  obtain ⟨huv, hp, hb⟩ := readU32_eq_some hu
  simp only [Prod.mk.injEq] at hv
  exact ⟨by rw [← hv.1, huv], by rw [← hv.2, hp], hb⟩

theorem readI64_eq_some {be : Bool} {data : List Nat} {p : Nat} {v : Int} {p' : Nat}
    (h : readI64 be data p = some (v, p')) :
    v = toSigned 64 ((if be then beVal else leVal) ((data.drop p).take 8)) ∧
      p' = p + 8 ∧ p + 8 ≤ data.length := by
  unfold readI64 at h
  simp only [Option.map_eq_some'] at h
  obtain ⟨⟨u, p2⟩, hu, hv⟩ := h
  obtain ⟨huv, hp, hb⟩ := readU64_eq_some hu
  simp only [Prod.mk.injEq] at hv
  exact ⟨by rw [← hv.1, huv], by rw [← hv.2, hp], hb⟩

/-- Expanding one element off a dropped-and-taken slice. -/
theorem drop_take_succ {l : List Nat} {p n : Nat} (h : p < l.length) :
    (l.drop p).take (n + 1) = l.getD p 0 :: (l.drop (p + 1)).take n := by
  rw [List.getD_eq_getElem l 0 h, List.drop_eq_getElem_cons h]
  rfl

/-- A four-byte slice as its elements. -/
theorem slice_four {l : List Nat} {p : Nat} (h : p + 4 ≤ l.length) :
    (l.drop p).take 4 =
      [l.getD p 0, l.getD (p + 1) 0, l.getD (p + 2) 0, l.getD (p + 3) 0] := by
  rw [drop_take_succ (by omega), drop_take_succ (by omega),
    drop_take_succ (by omega), drop_take_succ (by omega)]
  simp

theorem beVal_four {a b c d : Nat} :
    beVal [a, b, c, d] = ((a * 256 + b) * 256 + c) * 256 + d := by
  simp [beVal]

/-! ## `util.rs` helpers -/

/-- `util::reverse_bits`: reverses the eight low bits of a byte
(`rev |= 1 << (7 - val)` for every set bit `val`). -/
def reverse_bits (byte : Nat) : Nat :=
  (List.range 8).foldl
    (fun rev val => if byte &&& (1 <<< val) > 0 then rev ||| (1 <<< (7 - val)) else rev) 0

/-- Validity of a byte list under `String::from_utf8` (RFC 3629 UTF-8). -/
def utf8Valid : List Nat → Bool
  | [] => true
  | b :: rest =>
    if b < 0x80 then utf8Valid rest
    else if b < 0xC2 then false
    else if b < 0xE0 then
      match rest with
      | c1 :: r => (0x80 ≤ c1 && c1 < 0xC0) && utf8Valid r
      | [] => false
    else if b < 0xF0 then
      match rest with
      | c1 :: c2 :: r =>
        (0x80 ≤ c1 && c1 < 0xC0 &&
          !(b = 0xE0 && c1 < 0xA0) && !(b = 0xED && 0xA0 ≤ c1) &&
          0x80 ≤ c2 && c2 < 0xC0) && utf8Valid r
      | _ => false
    else if b < 0xF5 then
      match rest with
      | c1 :: c2 :: c3 :: r =>
        (0x80 ≤ c1 && c1 < 0xC0 &&
          !(b = 0xF0 && c1 < 0x90) && !(b = 0xF4 && 0x90 ≤ c1) &&
          0x80 ≤ c2 && c2 < 0xC0 && 0x80 ≤ c3 && c3 < 0xC0) && utf8Valid r
      | _ => false
    else false

/-- Validity of a u16 list under `String::from_utf16`: every high
surrogate must be followed by a low surrogate and low surrogates may not
appear on their own. -/
def utf16Valid : List Nat → Bool
  | [] => true
  | u :: rest =>
    if u < 0xD800 || 0xE000 ≤ u then utf16Valid rest
    else if u < 0xDC00 then
      match rest with
      | v :: r => (0xDC00 ≤ v && v < 0xE000) && utf16Valid r
      | [] => false
    else false

/-- `util::read_fixed_string`: reads `size` bytes and decodes them with
`String::from_utf8`, failing on invalid UTF-8.  The string is modelled as
its byte list. -/
def readFixedString (size : Nat) (data : List Nat) (p : Nat) :
    Option (List Nat × Nat) := do
  let (bs, p1) ← readBytes data size p
  if utf8Valid bs then some (bs, p1) else none

theorem readFixedString_eq_some {size : Nat} {data : List Nat} {p : Nat}
    {bs : List Nat} {p' : Nat} (h : readFixedString size data p = some (bs, p')) :
    bs = (data.drop p).take size ∧ p' = p + size ∧
      (size = 0 ∨ p + size ≤ data.length) := by
  simp only [readFixedString, bind, Option.bind_eq_some] at h
  obtain ⟨⟨bs0, p0⟩, hb, h⟩ := h
  have hb' := readBytes_eq_some hb
  have hbound := readBytes_bound hb
  split at h
  · simp only [Option.some.injEq, Prod.mk.injEq] at h
    exact ⟨by rw [← h.1, hb'.1], by rw [← h.2, hb'.2], hbound⟩
  · exact absurd h (by simp)

/-! ## `crypto_util.rs` -/

/-- Abstract model of an OpenSSL RSA public key as obtained from
`Rsa::public_key_from_pem_pkcs1` and used through
`public_decrypt(block, out, Padding::NONE)`: `keySize` is `Rsa::size()`
in bytes and `decryptBlock blk` returns the contents left in the
`key_size`-byte output buffer together with the byte count reported by
the RSA call, or `none` when the RSA operation fails. -/
structure RSAPub where
  keySize : Nat
  decryptBlock : List Nat → Option (List Nat × Nat)

/-- The `while len < file.len()` loop of `crypto_util::decrypt_bhd5_file`.
Each round slices `file[len..len + key_size]` (a panic when that range
overruns the buffer), applies the raw RSA operation, appends the
decrypted block minus its first byte, and advances `len` by the reported
count.  `fuel` bounds the number of rounds: any terminating run of the
Rust loop advances `len` by at least 1 per round, so `file.length` rounds
always suffice and exhausted fuel marks divergence (a round with a
reported count of 0 repeats its state forever). -/
def bhd5DecryptLoop (r : RSAPub) (file : List Nat) :
    Nat → Nat → List Nat → RResult (List Nat × Nat)
  | 0, len, acc =>
    if len < file.length then RResult.diverge else RResult.ok (acc, len)
  | fuel + 1, len, acc =>
    if len < file.length then
      if file.length < len + r.keySize then RResult.panic
      else
        match r.decryptBlock ((file.drop len).take r.keySize) with
        | none => RResult.err
        | some (blk, cnt) =>
          if cnt = 0 then RResult.diverge
          else bhd5DecryptLoop r file fuel (len + cnt) (acc ++ blk.drop 1)
    else RResult.ok (acc, len)

/-- `crypto_util::decrypt_bhd5_file`, parameterized by the abstract PEM
parser `parseKeyPkcs1` (the behaviour of `Rsa::public_key_from_pem_pkcs1`).
After the loop the accumulated data is truncated to the final `len`. -/
def decryptBhd5File (parseKeyPkcs1 : List Nat → Option RSAPub)
    (file key : List Nat) : RResult (List Nat) :=
  match parseKeyPkcs1 key with
  | none => RResult.err
  | some r =>
    match bhd5DecryptLoop r file file.length 0 [] with
    | RResult.ok (data, len) => RResult.ok (data.take len)
    | RResult.err => RResult.err
    | RResult.panic => RResult.panic
    | RResult.diverge => RResult.diverge

/-- `crypto_util::decrypt_regulation`, parameterized by an abstract
AES-256-CBC no-padding decryption oracle `aes key iv data`.  The slice
`&file[..16]` taken for the IV panics when the input is shorter than 16
bytes; otherwise the tail is handed to the cipher. -/
def decryptRegulation (aes : List Nat → List Nat → List Nat → Option (List Nat))
    (file key : List Nat) : RResult (List Nat) :=
  if file.length < 16 then RResult.panic
  else
    match aes key (file.take 16) (file.drop 16) with
    | none => RResult.err
    | some out => RResult.ok out

/-! ## `bhd5.rs` -/

inductive BHD5Format where
  | DarkSoulsII
  | DarkSoulsIII
  | EldenRing
deriving DecidableEq

structure BHD5Header where
  magic : List Nat
  unk04 : Int
  unk05 : Nat
  unk06 : Nat
  unk07 : Nat
  unk08 : Int
  file_size : Int
  bucket_count : Int
  buckets_offset : Int
  salt_len : Int
  salt : List Nat
deriving DecidableEq

/-- `bhd5::Range`; the source fields `begin`/`end` are renamed `rbegin`/
`rend` because `end` is a Lean keyword. -/
structure BHD5Range where
  rbegin : Int
  rend : Int
deriving DecidableEq

structure SaltedHash where
  hash : List Nat
  range_count : Int
  ranges : List BHD5Range
deriving DecidableEq

structure AESKey where
  key : List Nat
  range_count : Int
  ranges : List BHD5Range
deriving DecidableEq

structure BHD5FileHeader where
  file_path_hash : Int
  padded_file_size : Int
  file_size : Int
  file_offset : Int
  salted_hash_offset : Int
  aes_key_offset : Int
  salted_hash : Option SaltedHash
  aes_key : Option AESKey
deriving DecidableEq

structure BHD5Bucket where
  file_header_count : Int
  file_headers_offset : Int
  file_headers : List BHD5FileHeader
deriving DecidableEq

structure BHD5 where
  format : BHD5Format
  bhd5_header : BHD5Header
  buckets : List BHD5Bucket
deriving DecidableEq

/-- `BHD5::read_ranges`: `range_count` pairs of little-endian i64. -/
def readRangesAux (data : List Nat) : Nat → Nat → Option (List BHD5Range × Nat)
  | 0, p => some ([], p)
  | n + 1, p => do
    let (b, p) ← readI64 false data p
    let (e, p) ← readI64 false data p
    let (rs, p) ← readRangesAux data n p
    some (⟨b, e⟩ :: rs, p)

/-- `BHD5::read_salted_hash`: an offset below 1 encodes an absent
sub-record; otherwise jump there, read 32 hash bytes, a range count and
the ranges, and restore the position. -/
def readSaltedHash (data : List Nat) (p : Nat) (salted_hash_offset : Int) :
    Option (Option SaltedHash × Nat) :=
  if salted_hash_offset < 1 then some (none, p)
  else do
    let (hash, p2) ← readBytes data 32 (intAsUsize salted_hash_offset)
    let (range_count, p3) ← readI32 false data p2
    let (ranges, _) ← readRangesAux data range_count.toNat p3
    some (some ⟨hash, range_count, ranges⟩, p)

/-- `BHD5::read_aes_key`: like `read_salted_hash` with a 16-byte key. -/
def readAESKey (data : List Nat) (p : Nat) (aes_key_offset : Int) :
    Option (Option AESKey × Nat) :=
  if aes_key_offset < 1 then some (none, p)
  else do
    let (key, p2) ← readBytes data 16 (intAsUsize aes_key_offset)
    let (range_count, p3) ← readI32 false data p2
    let (ranges, _) ← readRangesAux data range_count.toNat p3
    some (some ⟨key, range_count, ranges⟩, p)

/-- One file entry of `BHD5::read_file_headers`, dispatched on the
dialect.  In the non-EldenRing branch `file_size` starts as `-1` and is
overwritten by a trailing i64 read only for DarkSoulsIII. -/
def readBHD5FileHeader (format : BHD5Format) (data : List Nat) (p : Nat) :
    Option (BHD5FileHeader × Nat) :=
  if format = BHD5Format.EldenRing then do
    let (file_path_hash, p) ← readI64 false data p
    let (padded_file_size, p) ← readI32 false data p
    let (file_size, p) ← readI32 false data p
    let (file_offset, p) ← readI64 false data p
    let (salted_hash_offset, p) ← readI64 false data p
    let (aes_key_offset, p) ← readI64 false data p
    let (salted_hash, p) ← readSaltedHash data p salted_hash_offset
    let (aes_key, p) ← readAESKey data p aes_key_offset
    some (⟨file_path_hash, padded_file_size, file_size, file_offset,
      salted_hash_offset, aes_key_offset, salted_hash, aes_key⟩, p)
  else do
    let (file_path_hash, p) ← readI32 false data p
    let (padded_file_size, p) ← readI32 false data p
    let (file_offset, p) ← readI64 false data p
    let (salted_hash_offset, p) ← readI64 false data p
    let (aes_key_offset, p) ← readI64 false data p
    let (salted_hash, p) ← readSaltedHash data p salted_hash_offset
    let (aes_key, p) ← readAESKey data p aes_key_offset
    let (file_size, p) ←
      if format = BHD5Format.DarkSoulsIII then readI64 false data p
      else some ((-1 : Int), p)
    some (⟨file_path_hash, padded_file_size, file_size, file_offset,
      salted_hash_offset, aes_key_offset, salted_hash, aes_key⟩, p)

/-- The per-bucket entry loop of `BHD5::read_file_headers`. -/
def readBHD5FileHeadersAux (format : BHD5Format) (data : List Nat) :
    Nat → Nat → Option (List BHD5FileHeader × Nat)
  | 0, p => some ([], p)
  | n + 1, p => do
    let (h, p) ← readBHD5FileHeader format data p
    let (hs, p) ← readBHD5FileHeadersAux format data n p
    some (h :: hs, p)

/-- `BHD5::read_file_headers`: jump to `file_headers_offset`, read the
entries, and restore the position. -/
def readBHD5FileHeaders (format : BHD5Format) (data : List Nat)
    (file_header_count file_headers_offset : Int) (p : Nat) :
    Option (List BHD5FileHeader × Nat) := do
  let (hs, _) ← readBHD5FileHeadersAux format data file_header_count.toNat
    (intAsUsize file_headers_offset)
  some (hs, p)

/-- The bucket loop of `BHD5::from_bytes`. -/
def readBHD5BucketsAux (format : BHD5Format) (data : List Nat) :
    Nat → Nat → Option (List BHD5Bucket × Nat)
  | 0, p => some ([], p)
  | n + 1, p => do
    let (file_header_count, p) ← readI32 false data p
    let (file_headers_offset, p) ← readI32 false data p
    let (file_headers, p) ←
      readBHD5FileHeaders format data file_header_count file_headers_offset p
    let (bs, p) ← readBHD5BucketsAux format data n p
    some (⟨file_header_count, file_headers_offset, file_headers⟩ :: bs, p)

def bhd5MagicBytes : List Nat := [66, 72, 68, 53]

/-- `bhd5::check_bhd5_header` (assertion failures are panics). -/
def checkBhd5Header (h : BHD5Header) : Bool :=
  decide (h.magic = bhd5MagicBytes ∧ h.unk04 = -1 ∧
    (h.unk05 = 0 ∨ h.unk05 = 1) ∧ h.unk06 = 0 ∧ h.unk07 = 0 ∧ h.unk08 = 1)

def grBytes : List Nat := [71, 82, 95]
def fdpBytes : List Nat := [70, 68, 80, 95]
def ntcBytes : List Nat := [78, 84, 67, 95]

/-- `bhd5::get_bhd5_format`.  The source slices `salt[..3]` and, when the
first test fails, `salt[..4]`; each slice panics (`none` here) when the
salt is shorter than the sliced range. -/
def getBhd5Format (salt : List Nat) : Option BHD5Format :=
  if salt.length < 3 then none
  else if salt.take 3 = grBytes then some BHD5Format.EldenRing
  else if salt.length < 4 then none
  else if salt.take 4 = fdpBytes ∨ salt.take 4 = ntcBytes then
    some BHD5Format.DarkSoulsIII
  else some BHD5Format.DarkSoulsII

/-- The dialect rule exactly as the specification words it: salt prefix
`"GR_"` gives EldenRing, otherwise prefix `"FDP_"` or `"NTC_"` gives
DarkSoulsIII, otherwise DarkSoulsII.  Stated from the spec, to be
compared with `getBhd5Format` from the source. -/
def specDialect (salt : List Nat) : BHD5Format :=
  if salt.take 3 = grBytes then BHD5Format.EldenRing
  else if salt.take 4 = fdpBytes ∨ salt.take 4 = ntcBytes then
    BHD5Format.DarkSoulsIII
  else BHD5Format.DarkSoulsII

/-- `BHD5::from_bytes`: header reads (little-endian), header check, salt
read, dialect derivation, then the bucket loop.  All `expect` panics and
`Err` returns are collapsed into `none`. -/
def bhd5FromBytes (file : List Nat) : Option BHD5 := do
  let (magic, p) ← readFixedString 4 file 0
  let (unk04, p) ← readI8 file p
  let (unk05, p) ← readU8 file p
  let (unk06, p) ← readU8 file p
  let (unk07, p) ← readU8 file p
  let (unk08, p) ← readI32 false file p
  let (file_size, p) ← readI32 false file p
  let (bucket_count, p) ← readI32 false file p
  let (buckets_offset, p) ← readI32 false file p
  let (salt_len, p) ← readI32 false file p
  let header0 : BHD5Header := ⟨magic, unk04, unk05, unk06, unk07, unk08,
    file_size, bucket_count, buckets_offset, salt_len, []⟩
  if checkBhd5Header header0 then do
    let (salt, p) ← readFixedString (intAsUsize salt_len) file p
    let format ← getBhd5Format salt
    let (buckets, _) ← readBHD5BucketsAux format file bucket_count.toNat p
    some ⟨format, { header0 with salt := salt }, buckets⟩
  else none

/-! ## `dcx.rs` -/

structure DCXBlock where
  unk00 : Nat
  dataOffset : Nat
  dataLength : Nat
  unk0C : Nat
deriving DecidableEq

structure DCXHeader where
  magic : List Nat
  unk04 : Nat
  dcsOffset : Nat
  dcpOffset : Nat
  unk10 : Nat
  unk14 : Nat
  dcs : List Nat
  uncompressedSize : Nat
  compressedSize : Nat
  dcp : List Nat
  format : List Nat
  unk2C : Nat
  unk30 : Nat
  unk31 : Nat
  unk32 : Nat
  unk33 : Nat
  unk34 : Nat
  unk38 : Nat
  unk3C : Nat
  unk40 : Nat
  dca : List Nat
  dcaSize : Nat
  egdt : Option (List Nat)
  unk50 : Option Nat
  unk54 : Option Nat
  unk58 : Option Nat
  unk5C : Option Nat
  lastBlockUncompressedSize : Option Nat
  egdtSize : Option Nat
  blockCount : Option Nat
  unk6C : Option Nat
  blocks : Option (List DCXBlock)
deriving DecidableEq

structure DCX where
  header : DCXHeader
  content : List Nat
deriving DecidableEq

def dcxMagicBytes : List Nat := [68, 67, 88, 0]
def dcsBytes : List Nat := [68, 67, 83, 0]
def dcpBytes : List Nat := [68, 67, 80, 0]
def dcaBytes : List Nat := [68, 67, 65, 0]
def dfltBytes : List Nat := [68, 70, 76, 84]
def edgeBytes : List Nat := [69, 68, 71, 69]
def krakBytes : List Nat := [75, 82, 65, 75]
def egdtBytes : List Nat := [69, 103, 100, 84]

/-- `dcx::read_blocks`: `count` big-endian block descriptors. -/
def readDCXBlocksAux (data : List Nat) : Nat → Nat → Option (List DCXBlock × Nat)
  | 0, p => some ([], p)
  | n + 1, p => do
    let (unk00, p) ← readU32 true data p
    let (dataOffset, p) ← readU32 true data p
    let (dataLength, p) ← readU32 true data p
    let (unk0C, p) ← readU32 true data p
    let (bs, p) ← readDCXBlocksAux data n p
    some (⟨unk00, dataOffset, dataLength, unk0C⟩ :: bs, p)

/-- The `format == "EDGE"` part of `dcx::validate_dcx_header`; the
`unwrap()` calls panic (`false` here) when a field is absent. -/
def validateDCXHeaderEdge (h : DCXHeader) : Bool :=
  match h.egdt, h.unk50, h.unk54, h.unk58, h.unk5C, h.unk6C, h.blocks with
  | some egdt, some unk50, some unk54, some unk58, some unk5C, some unk6C,
      some blocks =>
    decide (egdt = egdtBytes ∧ unk50 = 0x10100 ∧ unk54 = 0x24 ∧
      unk58 = 0x10 ∧ unk5C = 0x10000 ∧ unk6C = 0x100000) &&
    blocks.all (fun b => decide (b.unk00 = 0 ∧ b.unk0C = 1))
  | _, _, _, _, _, _, _ => false

/-- `dcx::validate_dcx_header` (assertion failures are panics). -/
def validateDCXHeader (h : DCXHeader) : Bool :=
  decide (h.magic = dcxMagicBytes ∧ (h.unk04 = 0x10000 ∨ h.unk04 = 0x11000) ∧
    h.dcsOffset = 0x18 ∧ h.dcpOffset = 0x24 ∧ (h.unk10 = 0x24 ∨ h.unk10 = 0x44) ∧
    h.dcs = dcsBytes ∧ h.dcp = dcpBytes ∧
    (h.format = dfltBytes ∨ h.format = edgeBytes ∨ h.format = krakBytes) ∧
    h.unk2C = 0x20 ∧ (h.unk30 = 6 ∨ h.unk30 = 8 ∨ h.unk30 = 9) ∧
    h.unk31 = 0 ∧ h.unk32 = 0 ∧ h.unk33 = 0 ∧
    (h.unk34 = 0 ∨ h.unk34 = 0x10000) ∧ h.unk38 = 0 ∧ h.unk3C = 0 ∧
    h.dca = dcaBytes) &&
  (if h.format = edgeBytes then validateDCXHeaderEdge h else true)

/-- Reads 1-6 of `DCX::from_bytes` (`magic` through `unk14`), big-endian.
(The header chain is split into short groups because long monadic chains
are costly to compile; the groups concatenate to the source's exact read
sequence.) -/
def readDCXHeaderA (file : List Nat) (p : Nat) :
    Option ((List Nat × Nat × Nat × Nat × Nat × Nat) × Nat) := do
  let (magic, p) ← readFixedString 4 file p
  let (unk04, p) ← readU32 true file p
  let (dcsOffset, p) ← readU32 true file p
  let (dcpOffset, p) ← readU32 true file p
  let (unk10, p) ← readU32 true file p
  let (unk14, p) ← readU32 true file p
  some ((magic, unk04, dcsOffset, dcpOffset, unk10, unk14), p)

/-- Reads 7-12 of `DCX::from_bytes` (`dcs` through `unk2C`). -/
def readDCXHeaderB (file : List Nat) (p : Nat) :
    Option ((List Nat × Nat × Nat × List Nat × List Nat × Nat) × Nat) := do
  let (dcs, p) ← readFixedString 4 file p
  let (uncompressedSize, p) ← readU32 true file p
  let (compressedSize, p) ← readU32 true file p
  let (dcp, p) ← readFixedString 4 file p
  let (format, p) ← readFixedString 4 file p
  let (unk2C, p) ← readU32 true file p
  some ((dcs, uncompressedSize, compressedSize, dcp, format, unk2C), p)

/-- Reads 13-18 of `DCX::from_bytes` (`unk30` through `unk38`). -/
def readDCXHeaderC (file : List Nat) (p : Nat) :
    Option ((Nat × Nat × Nat × Nat × Nat × Nat) × Nat) := do
  let (unk30, p) ← readU8 file p
  let (unk31, p) ← readU8 file p
  let (unk32, p) ← readU8 file p
  let (unk33, p) ← readU8 file p
  let (unk34, p) ← readU32 true file p
  let (unk38, p) ← readU32 true file p
  some ((unk30, unk31, unk32, unk33, unk34, unk38), p)

/-- Reads 19-22 of `DCX::from_bytes` (`unk3C` through `dcaSize`). -/
def readDCXHeaderD (file : List Nat) (p : Nat) :
    Option ((Nat × Nat × List Nat × Nat) × Nat) := do
  let (unk3C, p) ← readU32 true file p
  let (unk40, p) ← readU32 true file p
  let (dca, p) ← readFixedString 4 file p
  let (dcaSize, p) ← readU32 true file p
  some ((unk3C, unk40, dca, dcaSize), p)

/-- The fixed part of the `DCX::from_bytes` header (everything up to and
including `dcaSize`), all read big-endian, in the source's read order. -/
def readDCXHeaderBase (file : List Nat) (p : Nat) : Option (DCXHeader × Nat) := do
  let ((magic, unk04, dcsOffset, dcpOffset, unk10, unk14), p) ← readDCXHeaderA file p
  let ((dcs, uncompressedSize, compressedSize, dcp, format, unk2C), p) ←
    readDCXHeaderB file p
  let ((unk30, unk31, unk32, unk33, unk34, unk38), p) ← readDCXHeaderC file p
  let ((unk3C, unk40, dca, dcaSize), p) ← readDCXHeaderD file p
  some (⟨magic, unk04, dcsOffset, dcpOffset, unk10, unk14, dcs,
    uncompressedSize, compressedSize, dcp, format, unk2C, unk30, unk31, unk32,
    unk33, unk34, unk38, unk3C, unk40, dca, dcaSize,
    none, none, none, none, none, none, none, none, none, none⟩, p)

/-- Reads 1-5 of the EGDT sub-header (`egdt` through `unk5C`). -/
def readDCXEdgeA (file : List Nat) (p : Nat) :
    Option ((List Nat × Nat × Nat × Nat × Nat) × Nat) := do
  let (egdt, p) ← readFixedString 4 file p
  let (unk50, p) ← readU32 true file p
  let (unk54, p) ← readU32 true file p
  let (unk58, p) ← readU32 true file p
  let (unk5C, p) ← readU32 true file p
  some ((egdt, unk50, unk54, unk58, unk5C), p)

/-- Reads 6-10 of the EGDT sub-header (`lastBlockUncompressedSize`
through the block descriptor table). -/
def readDCXEdgeB (file : List Nat) (p : Nat) :
    Option ((Nat × Nat × Nat × Nat × List DCXBlock) × Nat) := do
  let (lastBlockUncompressedSize, p) ← readU32 true file p
  let (egdtSize, p) ← readU32 true file p
  let (blockCount, p) ← readU32 true file p
  let (unk6C, p) ← readU32 true file p
  let (blocks, p) ← readDCXBlocksAux file blockCount p
  some ((lastBlockUncompressedSize, egdtSize, blockCount, unk6C, blocks), p)

/-- The `format == "EDGE"` branch of `DCX::from_bytes`: the EGDT
sub-header fields and the block descriptors, merged into the header. -/
def readDCXEdgePart (base : DCXHeader) (file : List Nat) (p : Nat) :
    Option (DCXHeader × Nat) := do
  let ((egdt, unk50, unk54, unk58, unk5C), p) ← readDCXEdgeA file p
  let ((lastBlockUncompressedSize, egdtSize, blockCount, unk6C, blocks), p) ←
    readDCXEdgeB file p
  some ({ base with
            egdt := some egdt, unk50 := some unk50,
            unk54 := some unk54, unk58 := some unk58, unk5C := some unk5C,
            lastBlockUncompressedSize := some lastBlockUncompressedSize,
            egdtSize := some egdtSize, blockCount := some blockCount,
            unk6C := some unk6C, blocks := some blocks }, p)

/-- `DCX::from_bytes`: the whole header is read big-endian, the EGDT
sub-header is added for `"EDGE"`, validation runs, and `compressed_size`
bytes of payload are read. -/
def dcxFromBytes (file : List Nat) : Option DCX := do
  let (base, p) ← readDCXHeaderBase file 0
  let (hdr, p) ←
    if base.format = edgeBytes then readDCXEdgePart base file p
    else some (base, p)
  if validateDCXHeader hdr then do
    let (content, _) ← readBytes file hdr.compressedSize p
    some ⟨hdr, content⟩
  else none

/-- Modelled from the spec: the repository's `DCX::is` magic probe is not
among the source files under review (only its callers are); per the spec
(§4.6) it tests whether the first four bytes equal `"DCX\0"`. -/
def dcxIs (file : List Nat) : Bool := decide (file.take 4 = dcxMagicBytes)

/-! ## `bnd4.rs` -/

structure BND4Header where
  magic : List Nat
  unk04 : Nat
  unk05 : Nat
  unk06 : Nat
  unk07 : Nat
  unk08 : Nat
  big_endian : Bool
  unk0a : Nat
  unk0b : Nat
  file_count : Nat
  header_size : Nat
  version : List Nat
  file_header_size : Nat
  file_headers_end : Nat
  unicode : Bool
  raw_format : Nat
  extended : Nat
  unk33 : Nat
  unk34 : Nat
  buckets_offset : Nat
deriving DecidableEq

structure BND4File where
  raw_flags : Nat
  unk01 : Nat
  unk02 : Nat
  unk03 : Nat
  unk04 : Int
  compressed_size : Nat
  uncompressed_size : Option Nat
  data_offset : Nat
  id : Option Int
  name_offset : Option Nat
  zero : Option Nat
  name : Option (List Nat)
  data : Option (List Nat)
deriving DecidableEq

structure BND4Bucket where
  count : Nat
  index : Nat
deriving DecidableEq

structure BND4Hash where
  hash : Nat
  index : Nat
deriving DecidableEq

structure BND4BucketHeader where
  hashes_offset : Nat
  bucket_count : Nat
  buckets_header_size : Nat
  bucket_size : Nat
  hash_size : Nat
  unk0f : Nat
  buckets : List BND4Bucket
  hashes : List BND4Hash
deriving DecidableEq

structure BND4 where
  header : BND4Header
  files : List BND4File
  buckets : Option BND4BucketHeader
deriving DecidableEq

def bnd4Magic : List Nat := [66, 78, 68, 52]

/-- `read_fixed_cstr` of the `binary_interpreter` dependency as the spec
documents it (§4.1): reads `n` bytes kept verbatim (ASCII/Latin-1,
embedded NULs preserved for magic comparison), failing only at end of
buffer. -/
def readFixedCStr (n : Nat) (data : List Nat) (p : Nat) : Option (List Nat × Nat) :=
  readBytes data n p

theorem readFixedCStr_eq_some {n : Nat} {data : List Nat} {p : Nat}
    {bs : List Nat} {p' : Nat} (h : readFixedCStr n data p = some (bs, p')) :
    bs = (data.drop p).take n ∧ p' = p + n ∧ (n = 0 ∨ p + n ≤ data.length) :=
  ⟨(readBytes_eq_some h).1, (readBytes_eq_some h).2, readBytes_bound h⟩

/-- Byte loop of `read_cstr`: bytes up to an exclusive NUL terminator.
`fuel` bounds the rounds: each round consumes one byte, so `data.length - p`
rounds suffice, and fuel can only run out at a position past the end of
the buffer, where the read fails (`none`) exactly as `read_u8` would. -/
def readCStrAux (data : List Nat) : Nat → Nat → Option (List Nat × Nat)
  | 0, _ => none
  | fuel + 1, p => do
    let (b, p1) ← readU8 data p
    if b = 0 then some ([], p1)
    else do
      let (bs, p2) ← readCStrAux data fuel p1
      some (b :: bs, p2)

/-- `read_cstr` of the `binary_interpreter` dependency as the spec
documents it (§4.1): a zero-terminated UTF-8 string. -/
def readCStr (data : List Nat) (p : Nat) : Option (List Nat × Nat) := do
  let (bs, p1) ← readCStrAux data (data.length - p) p
  if utf8Valid bs then some (bs, p1) else none

/-- u16 loop of `read_wcstr`; fuel as in `readCStrAux` (each round
consumes two bytes, so `data.length - p` rounds more than suffice). -/
def readWCStrAux (be : Bool) (data : List Nat) : Nat → Nat → Option (List Nat × Nat)
  | 0, _ => none
  | fuel + 1, p => do
    let (u, p1) ← readU16 be data p
    if u = 0 then some ([], p1)
    else do
      let (us, p2) ← readWCStrAux be data fuel p1
      some (u :: us, p2)

/-- `read_wcstr` of the `binary_interpreter` dependency as the spec
documents it (§4.1): zero-terminated UTF-16 code units under the
cursor's endianness. -/
def readWCStr (be : Bool) (data : List Nat) (p : Nat) : Option (List Nat × Nat) := do
  let (us, p1) ← readWCStrAux be data (data.length - p) p
  if utf16Valid us then some (us, p1) else none

/-- `BND4::get_file_name`: remember the position, seek to `offset`, read
a zero-terminated name (UTF-16 when the `unicode` header flag is set,
UTF-8 otherwise), restore the position. -/
def getBND4FileName (be : Bool) (unicode : Bool) (data : List Nat) (p : Nat)
    (offset : Nat) : Option (List Nat × Nat) := do
  let (name, _) ← if unicode then readWCStr be data offset else readCStr data offset
  some (name, p)

/-- `Validate for BND4Header` (assertion failures are panics). -/
def validateBND4Header (h : BND4Header) : Bool :=
  decide (h.magic = bnd4Magic ∧ (h.unk04 = 0 ∨ h.unk04 = 1) ∧
    (h.unk05 = 0 ∨ h.unk05 = 1) ∧ h.unk06 = 0 ∧ h.unk07 = 0 ∧ h.unk08 = 0 ∧
    (h.unk0a = 0 ∨ h.unk0a = 1) ∧ h.unk0b = 0 ∧ h.header_size = 0x40 ∧
    (h.unicode = false ∨ h.unicode = true) ∧ (h.extended = 0 ∨ h.extended = 4) ∧
    h.unk33 = 0 ∧ h.unk34 = 0)

/-- `Validate for File` (assertion failures are panics). -/
def validateBND4File (f : BND4File) : Bool :=
  decide (f.unk01 = 0 ∧ f.unk02 = 0 ∧ f.unk03 = 0 ∧ f.unk04 = -1)

/-- Reads 1-6 of `BND4::read_bnd4_header` (`magic` through `unk08`).
(Split into short groups as for the DCX header; the groups concatenate
to the source's exact read sequence.) -/
def readBND4HeaderA (data : List Nat) (p : Nat) :
    Option ((List Nat × Nat × Nat × Nat × Nat × Nat) × Nat) := do
  let (magic, p) ← readFixedCStr 4 data p
  let (unk04, p) ← readU8 data p
  let (unk05, p) ← readU8 data p
  let (unk06, p) ← readU8 data p
  let (unk07, p) ← readU8 data p
  let (unk08, p) ← readU8 data p
  some ((magic, unk04, unk05, unk06, unk07, unk08), p)

/-- Reads 7-12 of `BND4::read_bnd4_header` (the endianness byte through
`version`). -/
def readBND4HeaderB (be : Bool) (data : List Nat) (p : Nat) :
    Option ((Nat × Nat × Nat × Nat × Nat × List Nat) × Nat) := do
  let (bigEndianByte, p) ← readU8 data p
  let (unk0a, p) ← readU8 data p
  let (unk0b, p) ← readU8 data p
  let (file_count, p) ← readU32 be data p
  let (header_size, p) ← readU64 be data p
  let (version, p) ← readFixedCStr 8 data p
  some ((bigEndianByte, unk0a, unk0b, file_count, header_size, version), p)

/-- Reads 13-18 of `BND4::read_bnd4_header` (`file_header_size` through
`unk33`). -/
def readBND4HeaderC (be : Bool) (data : List Nat) (p : Nat) :
    Option ((Nat × Nat × Nat × Nat × Nat × Nat) × Nat) := do
  let (file_header_size, p) ← readU64 be data p
  let (file_headers_end, p) ← readU64 be data p
  let (unicodeByte, p) ← readU8 data p
  let (raw_format, p) ← readU8 data p
  let (extended, p) ← readU8 data p
  let (unk33, p) ← readU8 data p
  some ((file_header_size, file_headers_end, unicodeByte, raw_format, extended,
    unk33), p)

/-- Reads 19-20 of `BND4::read_bnd4_header` (`unk34`, `buckets_offset`). -/
def readBND4HeaderD (be : Bool) (data : List Nat) (p : Nat) :
    Option ((Nat × Nat) × Nat) := do
  let (unk34, p) ← readU32 be data p
  let (buckets_offset, p) ← readU64 be data p
  some ((unk34, buckets_offset), p)

/-- `BND4::read_bnd4_header` under endianness `be`; the header is
validated before being returned. -/
def readBND4Header (be : Bool) (data : List Nat) (p : Nat) :
    Option (BND4Header × Nat) := do
  let ((magic, unk04, unk05, unk06, unk07, unk08), p) ← readBND4HeaderA data p
  let ((bigEndianByte, unk0a, unk0b, file_count, header_size, version), p) ←
    readBND4HeaderB be data p
  let ((file_header_size, file_headers_end, unicodeByte, raw_format, extended,
    unk33), p) ← readBND4HeaderC be data p
  let ((unk34, buckets_offset), p) ← readBND4HeaderD be data p
  let hdr : BND4Header := ⟨magic, unk04, unk05, unk06, unk07, unk08,
    bigEndianByte != 0, unk0a, unk0b, file_count, header_size, version,
    file_header_size, file_headers_end, unicodeByte != 0, raw_format,
    extended, unk33, unk34, buckets_offset⟩
  if validateBND4Header hdr then some (hdr, p) else none

/-- The unconditional leading reads of one file entry of
`BND4::read_bnd4_files` (`raw_flags` through `compressed_size`). -/
def readBND4FileFixed (be : Bool) (data : List Nat) (p : Nat) :
    Option ((Nat × Nat × Nat × Nat × Int × Nat) × Nat) := do
  let (raw_flags, p) ← readU8 data p
  let (unk01, p) ← readU8 data p
  let (unk02, p) ← readU8 data p
  let (unk03, p) ← readU8 data p
  let (unk04, p) ← readI32 be data p
  let (compressed_size, p) ← readU64 be data p
  some ((raw_flags, unk01, unk02, unk03, unk04, compressed_size), p)

/-- One file entry of `BND4::read_bnd4_files` (continuing
`readBND4FileFixed` in the source's read order): the optional reads are
driven by the effective format byte; when the format byte equals exactly
`0b00000100` an `id` and a trailing `zero` u32 follow `name_offset`; a
present `name_offset` resolves the name; `data` is always `Some(vec![])`;
the entry is validated before being returned. -/
def readBND4File (be : Bool) (format : Nat) (unicode : Bool) (data : List Nat)
    (p : Nat) : Option (BND4File × Nat) := do
  let ((raw_flags, unk01, unk02, unk03, unk04, compressed_size), p) ←
    readBND4FileFixed be data p
  let (uncompressed_size, p) ←
    if format &&& 0b00100000 ≠ 0 then
      (readU64 be data p).map (fun q => (some q.1, q.2))
    else some ((none : Option Nat), p)
  let (data_offset, p) ← readU32 be data p
  let (id0, p) ←
    if format &&& 0b00000010 ≠ 0 then
      (readI32 be data p).map (fun q => (some q.1, q.2))
    else some ((none : Option Int), p)
  let (name_offset, p) ←
    if format &&& 0b00000100 ≠ 0 ∨ format &&& 0b00001000 ≠ 0 then
      (readU32 be data p).map (fun q => (some q.1, q.2))
    else some ((none : Option Nat), p)
  let (id, zero, p) ←
    if format = 0b00000100 then do
      let (i, p) ← readI32 be data p
      let (z, p) ← readU32 be data p
      some (some i, some z, p)
    else some (id0, (none : Option Nat), p)
  let (name, p) ←
    match name_offset with
    | none => some ((none : Option (List Nat)), p)
    | some off =>
      (getBND4FileName be unicode data p off).map (fun q => (some q.1, q.2))
  let f : BND4File := ⟨raw_flags, unk01, unk02, unk03, unk04, compressed_size,
    uncompressed_size, data_offset, id, name_offset, zero, name, some []⟩
  if validateBND4File f then some (f, p) else none

/-- The `file_count` loop of `BND4::read_bnd4_files`. -/
def readBND4FilesAux (be : Bool) (format : Nat) (unicode : Bool) (data : List Nat) :
    Nat → Nat → Option (List BND4File × Nat)
  | 0, p => some ([], p)
  | n + 1, p => do
    let (f, p) ← readBND4File be format unicode data p
    let (fs, p) ← readBND4FilesAux be format unicode data n p
    some (f :: fs, p)

/-- `BND4::read_bnd4_files`: the effective format byte is `raw_format`
itself for a big-endian stream and its bit-reversal otherwise. -/
def readBND4Files (be : Bool) (data : List Nat) (header : BND4Header) (p : Nat) :
    Option (List BND4File × Nat) :=
  let format :=
    if header.big_endian then header.raw_format else reverse_bits header.raw_format
  readBND4FilesAux be format header.unicode data header.file_count p

/-- `BND4::read_bnd4_buckets`. -/
def readBND4BucketsAux (be : Bool) (data : List Nat) :
    Nat → Nat → Option (List BND4Bucket × Nat)
  | 0, p => some ([], p)
  | n + 1, p => do
    let (count, p) ← readU32 be data p
    let (index, p) ← readU32 be data p
    let (bs, p) ← readBND4BucketsAux be data n p
    some (⟨count, index⟩ :: bs, p)

/-- `BND4::read_bnd4_hashes`: seek to `hashes_offset`, then `file_count`
hash records. -/
def readBND4HashesAux (be : Bool) (data : List Nat) :
    Nat → Nat → Option (List BND4Hash × Nat)
  | 0, p => some ([], p)
  | n + 1, p => do
    let (hash, p) ← readU32 be data p
    let (index, p) ← readU32 be data p
    let (hs, p) ← readBND4HashesAux be data n p
    some (⟨hash, index⟩ :: hs, p)

/-- `BND4::read_bnd4_bucket_header`: seek to `buckets_offset`, read the
bucket table header, the buckets and the hash records, then restore the
position. -/
def readBND4BucketHeader (be : Bool) (data : List Nat) (header : BND4Header)
    (p : Nat) : Option (BND4BucketHeader × Nat) := do
  let (hashes_offset, p1) ← readU64 be data header.buckets_offset
  let (bucket_count, p1) ← readU32 be data p1
  let (buckets_header_size, p1) ← readU8 data p1
  let (bucket_size, p1) ← readU8 data p1
  let (hash_size, p1) ← readU8 data p1
  let (unk0f, p1) ← readU8 data p1
  let (buckets, _) ← readBND4BucketsAux be data bucket_count p1
  let (hashes, _) ← readBND4HashesAux be data header.file_count hashes_offset
  some (⟨hashes_offset, bucket_count, buckets_header_size, bucket_size,
    hash_size, unk0f, buckets, hashes⟩, p)

/-- The body of `BND4::from_bytes` after the optional DCX unwrap: peek
byte 9 as the big-endian flag, read the header and the file entries with
that endianness, and read the bucket table when `buckets_offset` is
non-zero. -/
def bnd4Parse (bytes : List Nat) : Option BND4 := do
  let b9 ← byteAt bytes 9
  let be := b9 != 0
  let (header, p) ← readBND4Header be bytes 0
  let (files, p) ← readBND4Files be bytes header p
  let buckets ←
    if header.buckets_offset ≠ 0 then
      (readBND4BucketHeader be bytes header p).map (fun q => some q.1)
    else some none
  some ⟨header, files, buckets⟩

/-- `BND4::from_bytes`: the input is first probed for the DCX magic; a
DCX input is parsed and decompressed (`DCX::decompress` dispatches to the
external codecs and is modelled by the abstract oracle `decompress`),
otherwise the raw bytes are parsed directly. -/
def bnd4FromBytes (decompress : DCX → Option (List Nat)) (file : List Nat) :
    Option BND4 := do
  let bytes ←
    if dcxIs file then do
      let d ← dcxFromBytes file
      decompress d
    else some file
  bnd4Parse bytes

/-! ## Concrete example inputs used by witnesses and counterexamples -/

def exBHD5Bytes : List Nat :=
  [66, 72, 68, 53, 255, 0, 0, 0, 1, 0, 0, 0, 0, 0, 0, 0,
   1, 0, 0, 0, 0, 0, 0, 0, 4, 0, 0, 0,
   65, 65, 65, 65,
   1, 0, 0, 0, 40, 0, 0, 0,
   1, 0, 0, 0, 16, 0, 0, 0,
   0, 0, 0, 0, 0, 0, 0, 0,
   0, 0, 0, 0, 0, 0, 0, 0,
   0, 0, 0, 0, 0, 0, 0, 0]

def exBHD5Entry : BHD5FileHeader := ⟨1, 16, -1, 0, 0, 0, none, none⟩
def exBHD5Bucket : BHD5Bucket := ⟨1, 40, [exBHD5Entry]⟩
def exBHD5Header : BHD5Header :=
  ⟨[66, 72, 68, 53], -1, 0, 0, 0, 1, 0, 1, 0, 4, [65, 65, 65, 65]⟩
def exBHD5Parsed : BHD5 := ⟨BHD5Format.DarkSoulsII, exBHD5Header, [exBHD5Bucket]⟩

theorem exBHD5_eval : bhd5FromBytes exBHD5Bytes = some exBHD5Parsed := by
  have h1 : readFixedString 4 exBHD5Bytes 0 = some ([66, 72, 68, 53], 4) := rfl
  have h2 : readI8 exBHD5Bytes 4 = some (-1, 5) := rfl
  have h3 : readU8 exBHD5Bytes 5 = some (0, 6) := rfl
  have h4 : readU8 exBHD5Bytes 6 = some (0, 7) := rfl
  have h5 : readU8 exBHD5Bytes 7 = some (0, 8) := rfl
  have h6 : readI32 false exBHD5Bytes 8 = some (1, 12) := rfl
  have h7 : readI32 false exBHD5Bytes 12 = some (0, 16) := rfl
  have h8 : readI32 false exBHD5Bytes 16 = some (1, 20) := rfl
  have h9 : readI32 false exBHD5Bytes 20 = some (0, 24) := rfl
  have h10 : readI32 false exBHD5Bytes 24 = some (4, 28) := rfl
  have hc : checkBhd5Header ⟨[66, 72, 68, 53], -1, 0, 0, 0, 1, 0, 1, 0, 4, []⟩ = true := rfl
  have hu : intAsUsize 4 = 4 := rfl
  have h11 : readFixedString 4 exBHD5Bytes 28 = some ([65, 65, 65, 65], 32) := rfl
  have h12 : getBhd5Format [65, 65, 65, 65] = some BHD5Format.DarkSoulsII := rfl
  have ht : Int.toNat 1 = 1 := rfl
  have h13 : readBHD5BucketsAux BHD5Format.DarkSoulsII exBHD5Bytes 1 32 =
      some ([exBHD5Bucket], 40) := rfl
  simp only [bhd5FromBytes, bind, Option.bind, h1, h2, h3, h4, h5, h6, h7, h8, h9, h10,
    hc, if_true, hu, h11, h12, ht, h13, exBHD5Parsed, exBHD5Header]

def exDCXBytes : List Nat :=
  [68, 67, 88, 0,  0, 1, 0, 0,  0, 0, 0, 24,  0, 0, 0, 36,
   0, 0, 0, 36,  0, 0, 0, 0,
   68, 67, 83, 0,  0, 0, 0, 0,  0, 0, 0, 0,  68, 67, 80, 0,
   68, 70, 76, 84,  0, 0, 0, 32,
   6, 0, 0, 0,  0, 0, 0, 0,  0, 0, 0, 0,
   0, 0, 0, 0,  0, 0, 0, 0,  68, 67, 65, 0,  0, 0, 0, 0]

def exDCXHeader : DCXHeader :=
  ⟨[68, 67, 88, 0], 0x10000, 0x18, 0x24, 0x24, 0, [68, 67, 83, 0], 0, 0,
   [68, 67, 80, 0], [68, 70, 76, 84], 0x20, 6, 0, 0, 0, 0, 0, 0, 0,
   [68, 67, 65, 0], 0,
   none, none, none, none, none, none, none, none, none, none⟩
def exDCXParsed : DCX := ⟨exDCXHeader, []⟩

theorem exDCX_eval : dcxFromBytes exDCXBytes = some exDCXParsed := by
  have hA : readDCXHeaderA exDCXBytes 0 =
      some (([68, 67, 88, 0], 0x10000, 0x18, 0x24, 0x24, 0), 24) := rfl
  have hB : readDCXHeaderB exDCXBytes 24 =
      some (([68, 67, 83, 0], 0, 0, [68, 67, 80, 0], [68, 70, 76, 84], 0x20), 48) := rfl
  have hC : readDCXHeaderC exDCXBytes 48 = some ((6, 0, 0, 0, 0, 0), 60) := rfl
  have hD : readDCXHeaderD exDCXBytes 60 = some ((0, 0, [68, 67, 65, 0], 0), 76) := rfl
  have hBase : readDCXHeaderBase exDCXBytes 0 = some (exDCXHeader, 76) := by
    simp only [readDCXHeaderBase, bind, Option.bind, hA, hB, hC, hD, exDCXHeader]
  have hfmt : (exDCXHeader.format = edgeBytes) = False := by
    simp [exDCXHeader, edgeBytes]
  have hv : validateDCXHeader exDCXHeader = true := rfl
  have hcs : exDCXHeader.compressedSize = 0 := rfl
  have hcontent : readBytes exDCXBytes 0 76 = some ([], 76) := rfl
  simp only [dcxFromBytes, bind, Option.bind, hBase, hfmt, if_false, hv, if_true, hcs,
    hcontent, exDCXParsed]


theorem bnd4FromBytes_not_dcx {decompress : DCX → Option (List Nat)}
    {file : List Nat} (h : dcxIs file = false) :
    bnd4FromBytes decompress file = bnd4Parse file := by
  unfold bnd4FromBytes
  rw [h]
  simp only [Bool.false_eq_true, if_false]
  rfl

def exBND4LEBytes : List Nat :=
  [66, 78, 68, 52,  0, 0, 0, 0,  0, 0, 0, 0,
   1, 0, 0, 0,
   64, 0, 0, 0, 0, 0, 0, 0,
   48, 48, 48, 48, 48, 48, 48, 48,
   36, 0, 0, 0, 0, 0, 0, 0,
   100, 0, 0, 0, 0, 0, 0, 0,
   0, 116, 0, 0,
   0, 0, 0, 0,
   0, 0, 0, 0, 0, 0, 0, 0,
   0, 0, 0, 0,
   255, 255, 255, 255,
   0, 0, 0, 0, 0, 0, 0, 0,
   0, 0, 0, 0, 0, 0, 0, 0,
   0, 0, 0, 0,
   0, 0, 0, 0,
   100, 0, 0, 0,
   65, 0]

def exBND4LEHeader : BND4Header :=
  ⟨[66, 78, 68, 52], 0, 0, 0, 0, 0, false, 0, 0, 1, 64,
   [48, 48, 48, 48, 48, 48, 48, 48], 36, 100, false, 116, 0, 0, 0, 0⟩
def exBND4LEFile : BND4File :=
  ⟨0, 0, 0, 0, -1, 0, some 0, 0, some 0, some 100, none, some [65], some []⟩
def exBND4LEParsed : BND4 := ⟨exBND4LEHeader, [exBND4LEFile], none⟩

theorem exBND4LEFile_eval : readBND4File false 46 false exBND4LEBytes 64 =
    some (exBND4LEFile, 100) := by
  have hfix : readBND4FileFixed false exBND4LEBytes 64 =
      some ((0, 0, 0, 0, -1, 0), 80) := rfl
  have hc32 : ((46 : Nat) &&& 0b00100000 ≠ 0) = True := eq_true (by decide)
  have hc2 : ((46 : Nat) &&& 0b00000010 ≠ 0) = True := eq_true (by decide)
  have hc48 : ((46 : Nat) &&& 0b00000100 ≠ 0 ∨ (46 : Nat) &&& 0b00001000 ≠ 0) = True :=
    eq_true (by decide)
  have hc4 : ((46 : Nat) = 0b00000100) = False := eq_false (by decide)
  have hu64 : readU64 false exBND4LEBytes 80 = some (0, 88) := rfl
  have hu32a : readU32 false exBND4LEBytes 88 = some (0, 92) := rfl
  have hi32 : readI32 false exBND4LEBytes 92 = some (0, 96) := rfl
  have hu32b : readU32 false exBND4LEBytes 96 = some (100, 100) := rfl
  have hname : getBND4FileName false false exBND4LEBytes 100 100 =
      some ([65], 100) := rfl
  simp only [readBND4File, bind, Option.bind, hfix, hc32, hc2, hc48, hc4, if_true,
    if_false, hu64, hu32a, hi32, hu32b, hname, Option.map_some']
  decide

theorem exBND4LE_eval :
    bnd4FromBytes (fun _ => none) exBND4LEBytes = some exBND4LEParsed := by
  have hA : readBND4HeaderA exBND4LEBytes 0 =
      some (([66, 78, 68, 52], 0, 0, 0, 0, 0), 9) := rfl
  have hB : readBND4HeaderB false exBND4LEBytes 9 =
      some ((0, 0, 0, 1, 64, [48, 48, 48, 48, 48, 48, 48, 48]), 32) := rfl
  have hC : readBND4HeaderC false exBND4LEBytes 32 =
      some ((36, 100, 0, 116, 0, 0), 52) := rfl
  have hD : readBND4HeaderD false exBND4LEBytes 52 = some ((0, 0), 64) := rfl
  have hhdr : readBND4Header false exBND4LEBytes 0 = some (exBND4LEHeader, 64) := by
    simp only [readBND4Header, bind, Option.bind, hA, hB, hC, hD]
    decide
  have hfiles : readBND4Files false exBND4LEBytes exBND4LEHeader 64 =
      some ([exBND4LEFile], 100) := by
    have haux : readBND4FilesAux false 46 false exBND4LEBytes 1 64 =
        some ([exBND4LEFile], 100) := by
      simp only [readBND4FilesAux, bind, Option.bind, exBND4LEFile_eval]
    have hfmt : (if exBND4LEHeader.big_endian then exBND4LEHeader.raw_format
        else reverse_bits exBND4LEHeader.raw_format) = 46 := rfl
    have huni : exBND4LEHeader.unicode = false := rfl
    have hfc : exBND4LEHeader.file_count = 1 := rfl
    simp only [readBND4Files, hfmt, huni, hfc]
    exact haux
  have hb9 : byteAt exBND4LEBytes 9 = some 0 := rfl
  have hbne : ((0 : Nat) != 0) = false := rfl
  have hbo : (exBND4LEHeader.buckets_offset ≠ 0) = False := eq_false (by decide)
  have hdcx : dcxIs exBND4LEBytes = false := rfl
  rw [bnd4FromBytes_not_dcx hdcx]
  simp only [bnd4Parse, bind, Option.bind, hb9, hbne, hhdr, hfiles, hbo, if_false,
    exBND4LEParsed]


def exBND4BEBytes : List Nat :=
  [66, 78, 68, 52,  0, 0, 0, 0,  0, 1, 0, 0,
   0, 0, 0, 1,
   0, 0, 0, 0, 0, 0, 0, 64,
   48, 48, 48, 48, 48, 48, 48, 48,
   0, 0, 0, 0, 0, 0, 0, 20,
   0, 0, 0, 0, 0, 0, 0, 84,
   0, 0, 0, 0,
   0, 0, 0, 0,
   0, 0, 0, 0, 0, 0, 0, 0,
   0, 0, 0, 0,
   255, 255, 255, 255,
   0, 0, 0, 0, 0, 0, 0, 0,
   0, 0, 0, 0]

def exBND4BEHeader : BND4Header :=
  ⟨[66, 78, 68, 52], 0, 0, 0, 0, 0, true, 0, 0, 1, 64,
   [48, 48, 48, 48, 48, 48, 48, 48], 20, 84, false, 0, 0, 0, 0, 0⟩
def exBND4BEFile : BND4File :=
  ⟨0, 0, 0, 0, -1, 0, none, 0, none, none, none, none, some []⟩
def exBND4BEParsed : BND4 := ⟨exBND4BEHeader, [exBND4BEFile], none⟩

theorem exBND4BEFile_eval : readBND4File true 0 false exBND4BEBytes 64 =
    some (exBND4BEFile, 84) := by
  have hfix : readBND4FileFixed true exBND4BEBytes 64 =
      some ((0, 0, 0, 0, -1, 0), 80) := rfl
  have hc32 : ((0 : Nat) &&& 0b00100000 ≠ 0) = False := eq_false (by decide)
  have hc2 : ((0 : Nat) &&& 0b00000010 ≠ 0) = False := eq_false (by decide)
  have hc48 : ((0 : Nat) &&& 0b00000100 ≠ 0 ∨ (0 : Nat) &&& 0b00001000 ≠ 0) = False :=
    eq_false (by decide)
  have hc4 : ((0 : Nat) = 0b00000100) = False := eq_false (by decide)
  have hu32a : readU32 true exBND4BEBytes 80 = some (0, 84) := rfl
  simp only [readBND4File, bind, Option.bind, hfix, hc32, hc2, hc48, hc4, if_true,
    if_false, hu32a, Option.map_some']
  decide

theorem exBND4BE_eval :
    bnd4FromBytes (fun _ => none) exBND4BEBytes = some exBND4BEParsed := by
  have hA : readBND4HeaderA exBND4BEBytes 0 =
      some (([66, 78, 68, 52], 0, 0, 0, 0, 0), 9) := rfl
  have hB : readBND4HeaderB true exBND4BEBytes 9 =
      some ((1, 0, 0, 1, 64, [48, 48, 48, 48, 48, 48, 48, 48]), 32) := rfl
  have hC : readBND4HeaderC true exBND4BEBytes 32 =
      some ((20, 84, 0, 0, 0, 0), 52) := rfl
  have hD : readBND4HeaderD true exBND4BEBytes 52 = some ((0, 0), 64) := rfl
  have hhdr : readBND4Header true exBND4BEBytes 0 = some (exBND4BEHeader, 64) := by
    simp only [readBND4Header, bind, Option.bind, hA, hB, hC, hD]
    decide
  have hfiles : readBND4Files true exBND4BEBytes exBND4BEHeader 64 =
      some ([exBND4BEFile], 84) := by
    have haux : readBND4FilesAux true 0 false exBND4BEBytes 1 64 =
        some ([exBND4BEFile], 84) := by
      simp only [readBND4FilesAux, bind, Option.bind, exBND4BEFile_eval]
    have hfmt : (if exBND4BEHeader.big_endian then exBND4BEHeader.raw_format
        else reverse_bits exBND4BEHeader.raw_format) = 0 := rfl
    have huni : exBND4BEHeader.unicode = false := rfl
    have hfc : exBND4BEHeader.file_count = 1 := rfl
    simp only [readBND4Files, hfmt, huni, hfc]
    exact haux
  have hb9 : byteAt exBND4BEBytes 9 = some 1 := rfl
  have hbne1 : ((1 : Nat) != 0) = true := rfl
  have hbo : (exBND4BEHeader.buckets_offset ≠ 0) = False := eq_false (by decide)
  have hdcx : dcxIs exBND4BEBytes = false := rfl
  rw [bnd4FromBytes_not_dcx hdcx]
  simp only [bnd4Parse, bind, Option.bind, hb9, hbne1, hhdr, hfiles, hbo, if_false,
    exBND4BEParsed]


/-! ## Claims about `crypto_util.rs` (C3, C8, C10) -/

/-- An RSA key model for counterexamples: key size 2, every block
decrypting to `[7, 7]` with the full key size reported, as the raw
no-padding RSA operation does. -/
def cexRSA : RSAPub := ⟨2, fun _ => some ([7, 7], 2)⟩

def cexParseKey : List Nat → Option RSAPub := fun _ => some cexRSA

/-- An RSA key model whose block operation always fails. -/
def failRSA : RSAPub := ⟨2, fun _ => none⟩

def failParseKey : List Nat → Option RSAPub := fun _ => some failRSA

/-- When every block decrypt reports `key_size` bytes, the loop consumes
the whole input in `file.length / key_size` rounds, appending
`key_size - 1` bytes per round; enough fuel is never exhausted. -/
theorem bhd5DecryptLoop_full_blocks (r : RSAPub) (file : List Nat)
    (hor : ∀ blk, ∃ out, r.decryptBlock blk = some (out, r.keySize) ∧
      out.length = r.keySize)
    (hks : 0 < r.keySize) :
    ∀ (n fuel len : Nat) (acc : List Nat),
      file.length = len + n * r.keySize → n ≤ fuel →
      ∃ tail, bhd5DecryptLoop r file fuel len acc =
          RResult.ok (acc ++ tail, file.length) ∧
        tail.length = n * (r.keySize - 1) := by
  intro n
  induction n with
  | zero =>
    intro fuel len acc hlen _
    have hl : file.length = len := by omega
    refine ⟨[], ?_, by simp⟩
    cases fuel with
    | zero =>
      unfold bhd5DecryptLoop
      rw [if_neg (by omega)]
      simp [hl]
    | succ fuel =>
      unfold bhd5DecryptLoop
      rw [if_neg (by omega)]
      simp [hl]
  | succ n ih =>
    intro fuel len acc hlen hfuel
    rw [Nat.succ_mul] at hlen
    cases fuel with
    | zero => omega
    | succ fuel =>
      unfold bhd5DecryptLoop
      rw [if_pos (by omega)]
      rw [if_neg (by omega)]
      obtain ⟨out, hout, holen⟩ := hor ((file.drop len).take r.keySize)
      rw [hout]
      dsimp only
      rw [if_neg (by omega)]
      obtain ⟨tail, htail, htlen⟩ :=
        ih fuel (len + r.keySize) (acc ++ out.drop 1) (by omega) (by omega)
      refine ⟨out.drop 1 ++ tail, ?_, ?_⟩
      · rw [htail, List.append_assoc]
      · rw [List.length_append, List.length_drop, holen, htlen, Nat.succ_mul]
        omega

/-- C10: regulation decryption is partial at the public interface: for
every input shorter than 16 bytes, taking the IV as the first 16 bytes
panics on the slice operation instead of returning an `Io` or `Crypto`
error value. -/
theorem C10_regulation_short_input_panics
    (aes : List Nat → List Nat → List Nat → Option (List Nat))
    (file key : List Nat) (h : file.length < 16) :
    decryptRegulation aes file key = RResult.panic := by
  unfold decryptRegulation
  rw [if_pos h]

/-- Witness for C10 at a concrete three-byte input. -/
theorem C10_witness :
    decryptRegulation (fun _ _ _ => none) [0, 1, 2] [] = RResult.panic :=
  C10_regulation_short_input_panics (fun _ _ _ => none) [0, 1, 2] [] (by decide)

/-- C3 counterexample: with a 2-byte key size and one block whose RSA
operation reports 2 consumed bytes (the full key size, as the raw
no-padding operation does), the returned plaintext is `[7]` of length 1,
not the reported sum `1 * key_size = 2`: the claim's final length clause
fails as stated. -/
theorem C3_counterexample :
    decryptBhd5File cexParseKey [0, 0] [] = RResult.ok [7] ∧
      ([7] : List Nat).length ≠ 1 * cexRSA.keySize := by decide

/-- C3 (amended): for every input whose length is a positive multiple
`n * key_size` of the key size and every well-formed key whose raw RSA
operation reports `key_size` consumed bytes per block, decryption
processes the input in consecutive `key_size` blocks, drops the first
byte of each decrypted block, and returns a plaintext of length
`n * (key_size - 1)`; the trailing truncation to the reported sum
`n * key_size` does not shorten the output. -/
theorem C3_block_decrypt_length
    (parseKey : List Nat → Option RSAPub) (file key : List Nat) (r : RSAPub)
    (n : Nat) (hk : parseKey key = some r) (hks : 0 < r.keySize) (hn : 0 < n)
    (hor : ∀ blk, ∃ out, r.decryptBlock blk = some (out, r.keySize) ∧
      out.length = r.keySize)
    (hlen : file.length = n * r.keySize) :
    ∃ out, decryptBhd5File parseKey file key = RResult.ok out ∧
      out.length = n * (r.keySize - 1) := by
  have hnk : n ≤ n * r.keySize := Nat.le_mul_of_pos_right n hks
  obtain ⟨tail, hloop, htl⟩ :=
    bhd5DecryptLoop_full_blocks r file hor hks n file.length 0 [] (by omega)
      (by omega)
  rw [List.nil_append] at hloop
  have htake : tail.take file.length = tail := by
    apply List.take_of_length_le
    rw [htl, hlen]
    exact Nat.mul_le_mul_left n (Nat.sub_le _ _)
  refine ⟨tail, ?_, htl⟩
  unfold decryptBhd5File
  rw [hk]
  dsimp only
  rw [hloop]
  dsimp only
  rw [htake]

/-- Witness for C3 (amended) at the concrete one-block input. -/
theorem C3_witness :
    ∃ out, decryptBhd5File cexParseKey [0, 0] [] = RResult.ok out ∧
      out.length = 1 * (cexRSA.keySize - 1) :=
  C3_block_decrypt_length cexParseKey [0, 0] [] cexRSA 1 rfl (by decide)
    (by decide) (fun blk => ⟨[7, 7], rfl, rfl⟩) (by decide)

/-- When every block decrypt reports `key_size` bytes but the input is
not a whole number of blocks, the loop eventually slices past the end of
the buffer, which panics. -/
theorem bhd5DecryptLoop_partial_block (r : RSAPub) (file : List Nat)
    (hor : ∀ blk, ∃ out, r.decryptBlock blk = some (out, r.keySize) ∧
      out.length = r.keySize)
    (rem : Nat) (hrem : 0 < rem) (hremlt : rem < r.keySize) :
    ∀ (n fuel len : Nat) (acc : List Nat),
      file.length = len + n * r.keySize + rem → n < fuel →
      bhd5DecryptLoop r file fuel len acc = RResult.panic := by
  intro n
  induction n with
  | zero =>
    intro fuel len acc hlen hfuel
    cases fuel with
    | zero => omega
    | succ fuel =>
      unfold bhd5DecryptLoop
      rw [if_pos (by omega), if_pos (by omega)]
  | succ n ih =>
    intro fuel len acc hlen hfuel
    rw [Nat.succ_mul] at hlen
    cases fuel with
    | zero => omega
    | succ fuel =>
      unfold bhd5DecryptLoop
      rw [if_pos (by omega), if_neg (by omega)]
      obtain ⟨out, hout, holen⟩ := hor ((file.drop len).take r.keySize)
      rw [hout]
      dsimp only
      rw [if_neg (by omega)]
      exact ih fuel (len + r.keySize) (acc ++ out.drop 1) (by omega) (by omega)

/-- C8 counterexample: a one-byte input under a 2-byte key size panics
on the block slice `&file[len..len + key_size]` instead of failing with
a crypto error, so "wrong block length" is not an error return. -/
theorem C8_counterexample :
    decryptBhd5File cexParseKey [0] [] = RResult.panic ∧
      (RResult.panic : RResult (List Nat)) ≠ RResult.err := by decide

/-- C8 (amended): BHD5 decryption fails with a crypto error (and returns
no partial output) when the supplied key is not a well-formed PKCS#1 PEM
public key and when the RSA operation itself fails; but when the input
length is not a whole number of `key_size` blocks it panics on the block
slice rather than returning an error. -/
theorem C8_crypto_failure_modes :
    (∀ (parseKey : List Nat → Option RSAPub) (file key : List Nat),
      parseKey key = none → decryptBhd5File parseKey file key = RResult.err) ∧
    (∀ (parseKey : List Nat → Option RSAPub) (file key : List Nat) (r : RSAPub)
      (n rem : Nat), parseKey key = some r →
      (∀ blk, ∃ out, r.decryptBlock blk = some (out, r.keySize) ∧
        out.length = r.keySize) →
      0 < rem → rem < r.keySize → file.length = n * r.keySize + rem →
      decryptBhd5File parseKey file key = RResult.panic) ∧
    (∀ (parseKey : List Nat → Option RSAPub) (file key : List Nat) (r : RSAPub),
      parseKey key = some r → 0 < file.length → r.keySize ≤ file.length →
      r.decryptBlock (file.take r.keySize) = none →
      decryptBhd5File parseKey file key = RResult.err) := by
  refine ⟨?_, ?_, ?_⟩
  · intro parseKey file key h
    unfold decryptBhd5File
    rw [h]
  · intro parseKey file key r n rem hk hor hrem hremlt hlen
    have hnk : n ≤ n * r.keySize := Nat.le_mul_of_pos_right n (by omega)
    have hloop := bhd5DecryptLoop_partial_block r file hor rem hrem hremlt n
      file.length 0 [] (by omega) (by omega)
    unfold decryptBhd5File
    rw [hk]
    dsimp only
    rw [hloop]
  · intro parseKey file key r hk h0 hkle hfail
    unfold decryptBhd5File
    rw [hk]
    dsimp only
    obtain ⟨m, hm⟩ : ∃ m, file.length = m + 1 := ⟨file.length - 1, by omega⟩
    rw [hm]
    unfold bhd5DecryptLoop
    rw [if_pos (by omega), if_neg (by omega), List.drop_zero]
    rw [hfail]

/-- Witness for C8 (amended): one concrete instance of each of the three
failure modes. -/
theorem C8_witness :
    decryptBhd5File (fun _ => none) [0] [] = RResult.err ∧
      decryptBhd5File cexParseKey [0] [] = RResult.panic ∧
      decryptBhd5File failParseKey [0, 0] [] = RResult.err :=
  ⟨C8_crypto_failure_modes.1 (fun _ => none) [0] [] rfl,
   C8_crypto_failure_modes.2.1 cexParseKey [0] [] cexRSA 0 1 rfl
     (fun blk => ⟨[7, 7], rfl, rfl⟩) (by decide) (by decide) (by decide),
   C8_crypto_failure_modes.2.2 failParseKey [0, 0] [] failRSA rfl (by decide)
     (by decide) rfl⟩

/-! ## Claims about `bhd5.rs` (C2, C5, C6) -/

theorem getBhd5Format_eq_specDialect {salt : List Nat} {f : BHD5Format}
    (h : getBhd5Format salt = some f) : f = specDialect salt := by
  unfold getBhd5Format at h
  unfold specDialect
  by_cases h3 : salt.length < 3
  · rw [if_pos h3] at h
    exact absurd h (by simp)
  · rw [if_neg h3] at h
    by_cases hgr : salt.take 3 = grBytes
    · rw [if_pos hgr] at h
      rw [if_pos hgr]
      exact (Option.some.inj h).symm
    · rw [if_neg hgr] at h
      rw [if_neg hgr]
      by_cases h4 : salt.length < 4
      · rw [if_pos h4] at h
        exact absurd h (by simp)
      · rw [if_neg h4] at h
        by_cases hd3 : salt.take 4 = fdpBytes ∨ salt.take 4 = ntcBytes
        · rw [if_pos hd3] at h
          rw [if_pos hd3]
          exact (Option.some.inj h).symm
        · rw [if_neg hd3] at h
          rw [if_neg hd3]
          exact (Option.some.inj h).symm

/-- Inversion of one monadic bind over `Option`. -/
theorem bind_some_inv {α β : Type} {x : Option α} {f : α → Option β} {b : β}
    (h : x.bind f = some b) : ∃ a, x = some a ∧ f a = some b := by
  cases x with
  | none => exact absurd h (by simp)
  | some a => exact ⟨a, rfl, h⟩

/-- Destructuring a successful `BHD5::from_bytes`: the stored dialect
comes from `get_bhd5_format` on the stored salt, and the stored buckets
come from the bucket loop run with that dialect and the stored
`bucket_count`. -/
theorem bhd5FromBytes_parts {file : List Nat} {b : BHD5}
    (h : bhd5FromBytes file = some b) :
    getBhd5Format b.bhd5_header.salt = some b.format ∧
    ∃ p p', readBHD5BucketsAux b.format file b.bhd5_header.bucket_count.toNat p =
      some (b.buckets, p') := by
  unfold bhd5FromBytes at h
  obtain ⟨⟨magic, p1⟩, hmagic, h⟩ := bind_some_inv h
  obtain ⟨⟨unk04, p2⟩, _, h⟩ := bind_some_inv h
  obtain ⟨⟨unk05, p3⟩, _, h⟩ := bind_some_inv h
  obtain ⟨⟨unk06, p4⟩, _, h⟩ := bind_some_inv h
  obtain ⟨⟨unk07, p5⟩, _, h⟩ := bind_some_inv h
  obtain ⟨⟨unk08, p6⟩, _, h⟩ := bind_some_inv h
  obtain ⟨⟨fsz, p7⟩, _, h⟩ := bind_some_inv h
  obtain ⟨⟨bcount, p8⟩, _, h⟩ := bind_some_inv h
  obtain ⟨⟨boff, p9⟩, _, h⟩ := bind_some_inv h
  obtain ⟨⟨slen, p10⟩, _, h⟩ := bind_some_inv h
  dsimp only at h
  split at h
  · obtain ⟨⟨salt, p11⟩, hsalt, h⟩ := bind_some_inv h
    obtain ⟨format, hformat, h⟩ := bind_some_inv h
    obtain ⟨⟨buckets, p12⟩, hbuckets, h⟩ := bind_some_inv h
    obtain rfl := Option.some.inj h
    exact ⟨hformat, p11, p12, hbuckets⟩
  · exact absurd h (by simp)

/-- C5: for every parsed BHD5 index, the dialect is the function of the
salt that the specification describes: prefix `"GR_"` gives EldenRing,
otherwise prefix `"FDP_"` or `"NTC_"` gives DarkSoulsIII, otherwise
DarkSoulsII. -/
theorem C5_dialect_from_salt {file : List Nat} {b : BHD5}
    (h : bhd5FromBytes file = some b) :
    b.format = specDialect b.bhd5_header.salt :=
  getBhd5Format_eq_specDialect (bhd5FromBytes_parts h).1

/-- Witness for C5 at the concrete DarkSoulsII example index. -/
theorem C5_witness :
    exBHD5Parsed.format = specDialect exBHD5Parsed.bhd5_header.salt :=
  C5_dialect_from_salt exBHD5_eval

theorem readSaltedHash_zero (data : List Nat) (p : Nat) :
    readSaltedHash data p 0 = some (none, p) := by
  unfold readSaltedHash
  rw [if_pos (by decide)]

theorem readAESKey_zero (data : List Nat) (p : Nat) :
    readAESKey data p 0 = some (none, p) := by
  unfold readAESKey
  rw [if_pos (by decide)]

/-- Per-entry form of C6: in every dialect branch an offset of zero
stores an absent sub-record. -/
theorem readBHD5FileHeader_offsets {format : BHD5Format} {data : List Nat}
    {p : Nat} {fh : BHD5FileHeader} {p' : Nat}
    (h : readBHD5FileHeader format data p = some (fh, p')) :
    (fh.salted_hash_offset = 0 → fh.salted_hash = none) ∧
    (fh.aes_key_offset = 0 → fh.aes_key = none) := by
  unfold readBHD5FileHeader at h
  split at h
  · obtain ⟨⟨hash, q1⟩, _, h⟩ := bind_some_inv h
    obtain ⟨⟨pfs, q2⟩, _, h⟩ := bind_some_inv h
    obtain ⟨⟨fs32, q3⟩, _, h⟩ := bind_some_inv h
    obtain ⟨⟨foff, q4⟩, _, h⟩ := bind_some_inv h
    obtain ⟨⟨shoff, q5⟩, _, h⟩ := bind_some_inv h
    obtain ⟨⟨aoff, q6⟩, _, h⟩ := bind_some_inv h
    obtain ⟨⟨sh, q7⟩, hsh, h⟩ := bind_some_inv h
    obtain ⟨⟨aes, q8⟩, haes, h⟩ := bind_some_inv h
    have hx := Option.some.inj h
    rw [Prod.mk.injEq] at hx
    rw [← hx.1]
    refine ⟨?_, ?_⟩
    · intro h0
      have h0' : shoff = 0 := h0
      rw [h0', readSaltedHash_zero] at hsh
      have hv := Option.some.inj hsh
      rw [Prod.mk.injEq] at hv
      exact hv.1.symm
    · intro h0
      have h0' : aoff = 0 := h0
      rw [h0', readAESKey_zero] at haes
      have hv := Option.some.inj haes
      rw [Prod.mk.injEq] at hv
      exact hv.1.symm
  · obtain ⟨⟨hash, q1⟩, _, h⟩ := bind_some_inv h
    obtain ⟨⟨pfs, q2⟩, _, h⟩ := bind_some_inv h
    obtain ⟨⟨foff, q3⟩, _, h⟩ := bind_some_inv h
    obtain ⟨⟨shoff, q4⟩, _, h⟩ := bind_some_inv h
    obtain ⟨⟨aoff, q5⟩, _, h⟩ := bind_some_inv h
    obtain ⟨⟨sh, q6⟩, hsh, h⟩ := bind_some_inv h
    obtain ⟨⟨aes, q7⟩, haes, h⟩ := bind_some_inv h
    dsimp only at h
    split at h
    · obtain ⟨⟨fs, q8⟩, _, h⟩ := bind_some_inv h
      have hx := Option.some.inj h
      rw [Prod.mk.injEq] at hx
      rw [← hx.1]
      refine ⟨?_, ?_⟩
      · intro h0
        have h0' : shoff = 0 := h0
        rw [h0', readSaltedHash_zero] at hsh
        have hv := Option.some.inj hsh
        rw [Prod.mk.injEq] at hv
        exact hv.1.symm
      · intro h0
        have h0' : aoff = 0 := h0
        rw [h0', readAESKey_zero] at haes
        have hv := Option.some.inj haes
        rw [Prod.mk.injEq] at hv
        exact hv.1.symm
    · obtain ⟨⟨fs, q8⟩, _, h⟩ := bind_some_inv h
      have hx := Option.some.inj h
      rw [Prod.mk.injEq] at hx
      rw [← hx.1]
      refine ⟨?_, ?_⟩
      · intro h0
        have h0' : shoff = 0 := h0
        rw [h0', readSaltedHash_zero] at hsh
        have hv := Option.some.inj hsh
        rw [Prod.mk.injEq] at hv
        exact hv.1.symm
      · intro h0
        have h0' : aoff = 0 := h0
        rw [h0', readAESKey_zero] at haes
        have hv := Option.some.inj haes
        rw [Prod.mk.injEq] at hv
        exact hv.1.symm

/-- Per-entry form of C2 (amended): a DarkSoulsII entry keeps the `-1`
the parser initialises `file_size` with, because the DS2 wire layout has
no file-size field. -/
theorem readBHD5FileHeader_ds2_file_size {data : List Nat} {p : Nat}
    {fh : BHD5FileHeader} {p' : Nat}
    (h : readBHD5FileHeader BHD5Format.DarkSoulsII data p = some (fh, p')) :
    fh.file_size = -1 := by
  unfold readBHD5FileHeader at h
  rw [if_neg (by decide)] at h
  obtain ⟨⟨hash, q1⟩, _, h⟩ := bind_some_inv h
  obtain ⟨⟨pfs, q2⟩, _, h⟩ := bind_some_inv h
  obtain ⟨⟨foff, q3⟩, _, h⟩ := bind_some_inv h
  obtain ⟨⟨shoff, q4⟩, _, h⟩ := bind_some_inv h
  obtain ⟨⟨aoff, q5⟩, _, h⟩ := bind_some_inv h
  obtain ⟨⟨sh, q6⟩, _, h⟩ := bind_some_inv h
  obtain ⟨⟨aes, q7⟩, _, h⟩ := bind_some_inv h
  dsimp only at h
  rw [if_neg (by decide)] at h
  obtain ⟨⟨fs, q8⟩, hfs, h⟩ := bind_some_inv h
  have hfs' := Option.some.inj hfs
  rw [Prod.mk.injEq] at hfs'
  have hx := Option.some.inj h
  rw [Prod.mk.injEq] at hx
  rw [← hx.1]
  exact hfs'.1.symm

theorem readBHD5FileHeadersAux_mem {format : BHD5Format} {data : List Nat}
    {P : BHD5FileHeader → Prop}
    (hP : ∀ p fh p', readBHD5FileHeader format data p = some (fh, p') → P fh) :
    ∀ (n p : Nat) (hs : List BHD5FileHeader) (p' : Nat),
      readBHD5FileHeadersAux format data n p = some (hs, p') → ∀ fh ∈ hs, P fh := by
  intro n
  induction n with
  | zero =>
    intro p hs p' h fh hfh
    unfold readBHD5FileHeadersAux at h
    simp only [Option.some.injEq, Prod.mk.injEq] at h
    rw [← h.1] at hfh
    exact absurd hfh (by simp)
  | succ n ih =>
    intro p hs p' h fh hfh
    unfold readBHD5FileHeadersAux at h
    simp only [bind, Option.bind_eq_some] at h
    obtain ⟨⟨fh1, p1⟩, h1, h⟩ := h
    obtain ⟨⟨rest, p2⟩, h2, h⟩ := h
    simp only [Option.some.injEq, Prod.mk.injEq] at h
    rw [← h.1] at hfh
    rcases List.mem_cons.mp hfh with rfl | hm
    · exact hP _ _ _ h1
    · exact ih _ _ _ h2 fh hm

theorem readBHD5BucketsAux_mem {format : BHD5Format} {data : List Nat}
    {P : BHD5FileHeader → Prop}
    (hP : ∀ p fh p', readBHD5FileHeader format data p = some (fh, p') → P fh) :
    ∀ (n p : Nat) (bs : List BHD5Bucket) (p' : Nat),
      readBHD5BucketsAux format data n p = some (bs, p') →
      ∀ bk ∈ bs, ∀ fh ∈ bk.file_headers, P fh := by
  intro n
  induction n with
  | zero =>
    intro p bs p' h bk hbk
    unfold readBHD5BucketsAux at h
    simp only [Option.some.injEq, Prod.mk.injEq] at h
    rw [← h.1] at hbk
    exact absurd hbk (by simp)
  | succ n ih =>
    intro p bs p' h bk hbk
    unfold readBHD5BucketsAux at h
    simp only [bind, Option.bind_eq_some] at h
    obtain ⟨⟨cnt, p1⟩, _, h⟩ := h
    obtain ⟨⟨off, p2⟩, _, h⟩ := h
    obtain ⟨⟨fhs, p3⟩, hfhs, h⟩ := h
    obtain ⟨⟨rest, p4⟩, hrest, h⟩ := h
    simp only [Option.some.injEq, Prod.mk.injEq] at h
    rw [← h.1] at hbk
    rcases List.mem_cons.mp hbk with rfl | hm
    · intro fh hfh
      simp only [readBHD5FileHeaders, bind, Option.bind_eq_some] at hfhs
      obtain ⟨⟨hs0, q⟩, hq, hfhs⟩ := hfhs
      simp only [Option.some.injEq, Prod.mk.injEq] at hfhs
      have : fh ∈ hs0 := by
        have he : fhs = hs0 := by
          have := hfhs.1
          simp only [BHD5Bucket.mk.injEq] at *
          exact this.symm ▸ rfl
        rw [← he]
        exact hfh
      exact readBHD5FileHeadersAux_mem hP _ _ _ _ hq fh this
    · exact ih _ _ _ hrest bk hm

/-- C2 (amended): for every BHD5 index parsed under the DarkSoulsII
dialect, every file entry's `file_size` field is `-1` (the sentinel the
parser never overwrites), because the DS2 per-entry layout carries no
file-size field on the wire. -/
theorem C2_ds2_file_size {file : List Nat} {b : BHD5}
    (h : bhd5FromBytes file = some b)
    (hds2 : b.format = BHD5Format.DarkSoulsII) :
    ∀ bk ∈ b.buckets, ∀ fh ∈ bk.file_headers, fh.file_size = -1 := by
  obtain ⟨_, p, p', hbk⟩ := bhd5FromBytes_parts h
  rw [hds2] at hbk
  exact readBHD5BucketsAux_mem
    (fun p fh p' hh => readBHD5FileHeader_ds2_file_size hh) _ _ _ _ hbk

/-- C2 counterexample: the concrete DarkSoulsII index parses with its
single entry's `file_size` equal to `-1`, not `0` as the claim states. -/
theorem C2_counterexample :
    bhd5FromBytes exBHD5Bytes = some exBHD5Parsed ∧
    exBHD5Parsed.format = BHD5Format.DarkSoulsII ∧
    exBHD5Parsed.buckets.map
      (fun bk => bk.file_headers.map (fun fh => fh.file_size)) = [[-1]] ∧
    (-1 : Int) ≠ 0 :=
  ⟨exBHD5_eval, by decide, by decide, by decide⟩

/-- Witness for C2 (amended) at the concrete DarkSoulsII index. -/
theorem C2_witness : exBHD5Entry.file_size = -1 :=
  C2_ds2_file_size exBHD5_eval (by decide) exBHD5Bucket (by decide)
    exBHD5Entry (by decide)

/-- C6: for every BHD5 file entry, a `salted_hash_offset` of 0 yields an
absent salted hash and an `aes_key_offset` of 0 yields an absent AES
key; and the sub-record readers themselves succeed (returning the absent
value, never an error) at offset 0. -/
theorem C6_sub_record_absence {file : List Nat} {b : BHD5}
    (h : bhd5FromBytes file = some b) :
    (∀ bk ∈ b.buckets, ∀ fh ∈ bk.file_headers,
      (fh.salted_hash_offset = 0 → fh.salted_hash = none) ∧
      (fh.aes_key_offset = 0 → fh.aes_key = none)) ∧
    (∀ (data : List Nat) (p : Nat),
      readSaltedHash data p 0 = some (none, p) ∧
      readAESKey data p 0 = some (none, p)) := by
  refine ⟨?_, fun data p => ⟨readSaltedHash_zero data p, readAESKey_zero data p⟩⟩
  obtain ⟨_, p, p', hbk⟩ := bhd5FromBytes_parts h
  exact readBHD5BucketsAux_mem
    (fun p fh p' hh => readBHD5FileHeader_offsets hh) _ _ _ _ hbk

/-- Witness for C6 at the concrete index whose entry has both sub-record
offsets equal to 0. -/
theorem C6_witness : exBHD5Entry.salted_hash = none ∧ exBHD5Entry.aes_key = none :=
  ⟨((C6_sub_record_absence exBHD5_eval).1 exBHD5Bucket (by decide)
      exBHD5Entry (by decide)).1 (by decide),
   ((C6_sub_record_absence exBHD5_eval).1 exBHD5Bucket (by decide)
      exBHD5Entry (by decide)).2 (by decide)⟩

/-! ## Claim about `dcx.rs` (C4) -/

/-- The header facts `validate_dcx_header` checks before returning. -/
theorem dcxHeaderInvariants_of_validate {hdr : DCXHeader}
    (hval : validateDCXHeader hdr = true) :
    hdr.magic = dcxMagicBytes ∧ hdr.dcsOffset = 0x18 ∧ hdr.dcpOffset = 0x24 ∧
    hdr.dcs = dcsBytes ∧ hdr.dcp = dcpBytes ∧ hdr.dca = dcaBytes ∧
    (hdr.format = dfltBytes ∨ hdr.format = edgeBytes ∨
      hdr.format = krakBytes) := by
  unfold validateDCXHeader at hval
  rw [Bool.and_eq_true] at hval
  obtain ⟨hmagic, _, hdcsOff, hdcpOff, _, hdcs, hdcp, hformat, _⟩ :=
    of_decide_eq_true hval.1
  have hdca := (of_decide_eq_true hval.1).2.2.2.2.2.2.2.2.2.2.2.2.2.2.2.2
  exact ⟨hmagic, hdcsOff, hdcpOff, hdcs, hdcp, hdca, hformat⟩

/-- C4: for every byte buffer from which DCX parsing returns
successfully, the returned header satisfies the magic, offset, tag and
format invariants that `validate_dcx_header` asserts. -/
theorem C4_dcx_header_invariants {file : List Nat} {d : DCX}
    (h : dcxFromBytes file = some d) :
    d.header.magic = dcxMagicBytes ∧ d.header.dcsOffset = 0x18 ∧
    d.header.dcpOffset = 0x24 ∧ d.header.dcs = dcsBytes ∧
    d.header.dcp = dcpBytes ∧ d.header.dca = dcaBytes ∧
    (d.header.format = dfltBytes ∨ d.header.format = edgeBytes ∨
      d.header.format = krakBytes) := by
  unfold dcxFromBytes at h
  obtain ⟨⟨base, p1⟩, hbase, h⟩ := bind_some_inv h
  dsimp only at h
  split at h
  · obtain ⟨⟨hdr, p2⟩, hhdr, h⟩ := bind_some_inv h
    dsimp only at h
    split at h
    · rename_i hval
      obtain ⟨⟨content, p3⟩, hc, h⟩ := bind_some_inv h
      obtain rfl := Option.some.inj h
      exact dcxHeaderInvariants_of_validate hval
    · exact absurd h (by simp)
  · obtain ⟨⟨hdr, p2⟩, hhdr, h⟩ := bind_some_inv h
    dsimp only at h
    split at h
    · rename_i hval
      obtain ⟨⟨content, p3⟩, hc, h⟩ := bind_some_inv h
      obtain rfl := Option.some.inj h
      exact dcxHeaderInvariants_of_validate hval
    · exact absurd h (by simp)

/-- Witness for C4 at the concrete DFLT-format DCX buffer. -/
theorem C4_witness :
    exDCXParsed.header.magic = dcxMagicBytes ∧
    exDCXParsed.header.dcsOffset = 0x18 ∧
    exDCXParsed.header.dcpOffset = 0x24 ∧
    exDCXParsed.header.dcs = dcsBytes ∧
    exDCXParsed.header.dcp = dcpBytes ∧
    exDCXParsed.header.dca = dcaBytes ∧
    (exDCXParsed.header.format = dfltBytes ∨
      exDCXParsed.header.format = edgeBytes ∨
      exDCXParsed.header.format = krakBytes) :=
  C4_dcx_header_invariants exDCX_eval

/-! ## Claims about `bnd4.rs` (C1, C7, C9) -/

/-- One conditional optional read of `BND4::read_bnd4_files`: the bound
optional value is present exactly when the condition held. -/
theorem condRead_step {α β : Type} {c : Prop} [Decidable c]
    {rd : Option (α × Nat)} {k : Option α × Nat → Option β} {p : Nat} {r : β}
    (h : (if c then (Option.map (fun q => (some q.1, q.2)) rd).bind k
          else (some ((none : Option α), p)).bind k) = some r) :
    ∃ v p2, k (v, p2) = some r ∧ (v.isSome ↔ c) := by
  split at h
  · rename_i hc
    obtain ⟨⟨v, p2⟩, hv, h⟩ := bind_some_inv h
    obtain ⟨q, hq, he⟩ := Option.map_eq_some'.mp hv
    rw [Prod.mk.injEq] at he
    refine ⟨v, p2, h, ?_⟩
    rw [← he.1]
    exact iff_of_true (by simp) hc
  · rename_i hc
    obtain ⟨⟨v, p2⟩, hv, h⟩ := bind_some_inv h
    have hv' := Option.some.inj hv
    rw [Prod.mk.injEq] at hv'
    refine ⟨v, p2, h, ?_⟩
    rw [← hv'.1]
    exact iff_of_false (by simp) hc

/-- Per-entry inversion of `BND4::read_bnd4_files`: the payload is the
empty vector and each optional field is present exactly when the format
bitfield requests it. -/
theorem readBND4File_fields {be : Bool} {format : Nat} {unicode : Bool}
    {data : List Nat} {p : Nat} {f : BND4File} {p' : Nat}
    (h : readBND4File be format unicode data p = some (f, p')) :
    f.data = some ([] : List Nat) ∧
    (f.uncompressed_size.isSome ↔ format &&& 0b00100000 ≠ 0) ∧
    (f.id.isSome ↔ (format &&& 0b00000010 ≠ 0 ∨ format = 0b00000100)) ∧
    (f.name_offset.isSome ↔
      (format &&& 0b00000100 ≠ 0 ∨ format &&& 0b00001000 ≠ 0)) ∧
    (f.zero.isSome ↔ format = 0b00000100) := by
  unfold readBND4File at h
  obtain ⟨⟨⟨rf, u1, u2, u3, u4, cs⟩, p1⟩, _, h⟩ := bind_some_inv h
  dsimp only at h
  obtain ⟨usz, p2, h, husz⟩ := condRead_step h
  dsimp only at h
  obtain ⟨⟨doff, p3⟩, _, h⟩ := bind_some_inv h
  dsimp only at h
  obtain ⟨id0, p4, h, hid0⟩ := condRead_step h
  dsimp only at h
  obtain ⟨noff, p5, h, hnoff⟩ := condRead_step h
  dsimp only at h
  by_cases h4 : format = 0b00000100
  · rw [if_pos h4] at h
    obtain ⟨⟨i, q1⟩, _, h⟩ := bind_some_inv h
    dsimp only at h
    obtain ⟨⟨z, q2⟩, _, h⟩ := bind_some_inv h
    dsimp only at h
    obtain ⟨⟨idv, zv, p6⟩, hidz, h⟩ := bind_some_inv h
    have hvz := Option.some.inj hidz
    rw [Prod.mk.injEq, Prod.mk.injEq] at hvz
    obtain ⟨he1, he2, he3⟩ := hvz
    subst he1
    subst he2
    dsimp only at h
    rcases noff with _ | off
    · obtain ⟨⟨nm, p7⟩, _, h⟩ := bind_some_inv h
      dsimp only at h
      split at h
      · have hx := Option.some.inj h
        rw [Prod.mk.injEq] at hx
        rw [← hx.1]
        exact ⟨rfl, husz, iff_of_true (by simp) (Or.inr h4), hnoff,
          iff_of_true (by simp) h4⟩
      · exact absurd h (by simp)
    · obtain ⟨⟨nm, p7⟩, _, h⟩ := bind_some_inv h
      dsimp only at h
      split at h
      · have hx := Option.some.inj h
        rw [Prod.mk.injEq] at hx
        rw [← hx.1]
        exact ⟨rfl, husz, iff_of_true (by simp) (Or.inr h4), hnoff,
          iff_of_true (by simp) h4⟩
      · exact absurd h (by simp)
  · rw [if_neg h4] at h
    obtain ⟨⟨idv, zv, p6⟩, hidz, h⟩ := bind_some_inv h
    have hvz := Option.some.inj hidz
    rw [Prod.mk.injEq, Prod.mk.injEq] at hvz
    obtain ⟨he1, he2, he3⟩ := hvz
    subst he1
    subst he2
    dsimp only at h
    have hidc : id0.isSome ↔
        (format &&& 0b00000010 ≠ 0 ∨ format = 0b00000100) :=
      ⟨fun hs => Or.inl (hid0.mp hs),
       fun hor => hid0.mpr (Or.resolve_right hor h4)⟩
    rcases noff with _ | off
    · obtain ⟨⟨nm, p7⟩, _, h⟩ := bind_some_inv h
      dsimp only at h
      split at h
      · have hx := Option.some.inj h
        rw [Prod.mk.injEq] at hx
        rw [← hx.1]
        exact ⟨rfl, husz, hidc, hnoff, iff_of_false (by simp) h4⟩
      · exact absurd h (by simp)
    · obtain ⟨⟨nm, p7⟩, _, h⟩ := bind_some_inv h
      dsimp only at h
      split at h
      · have hx := Option.some.inj h
        rw [Prod.mk.injEq] at hx
        rw [← hx.1]
        exact ⟨rfl, husz, hidc, hnoff, iff_of_false (by simp) h4⟩
      · exact absurd h (by simp)

theorem readBND4FilesAux_mem {be : Bool} {format : Nat} {unicode : Bool}
    {data : List Nat} {P : BND4File → Prop}
    (hP : ∀ p f p', readBND4File be format unicode data p = some (f, p') → P f) :
    ∀ (n p : Nat) (fs : List BND4File) (p' : Nat),
      readBND4FilesAux be format unicode data n p = some (fs, p') →
      ∀ f ∈ fs, P f := by
  intro n
  induction n with
  | zero =>
    intro p fs p' h f hf
    unfold readBND4FilesAux at h
    simp only [Option.some.injEq, Prod.mk.injEq] at h
    rw [← h.1] at hf
    exact absurd hf (by simp)
  | succ n ih =>
    intro p fs p' h f hf
    unfold readBND4FilesAux at h
    obtain ⟨⟨f1, p1⟩, h1, h⟩ := bind_some_inv h
    obtain ⟨⟨rest, p2⟩, h2, h⟩ := bind_some_inv h
    have hx := Option.some.inj h
    rw [Prod.mk.injEq] at hx
    rw [← hx.1] at hf
    rcases List.mem_cons.mp hf with rfl | hm
    · exact hP _ _ _ h1
    · exact ih _ _ _ h2 f hm

/-- Destructuring a successful `BND4::from_bytes`: some byte stream
(the raw input or the decompressed DCX payload) parsed as the result. -/
theorem bnd4FromBytes_parse {decompress : DCX → Option (List Nat)}
    {file : List Nat} {b : BND4} (h : bnd4FromBytes decompress file = some b) :
    ∃ bytes, bnd4Parse bytes = some b := by
  unfold bnd4FromBytes at h
  dsimp only at h
  split at h
  · obtain ⟨d, _, h⟩ := bind_some_inv h
    obtain ⟨bytes, _, h⟩ := bind_some_inv h
    exact ⟨bytes, h⟩
  · obtain ⟨bytes, _, h⟩ := bind_some_inv h
    exact ⟨bytes, h⟩

/-- Destructuring the file loop of a successful parse: the stored files
come from `read_bnd4_files` run with the effective format byte computed
from the stored header. -/
theorem bnd4Parse_files {bytes : List Nat} {b : BND4}
    (h : bnd4Parse bytes = some b) :
    ∃ be p p',
      readBND4FilesAux be
        (if b.header.big_endian then b.header.raw_format
         else reverse_bits b.header.raw_format)
        b.header.unicode bytes b.header.file_count p = some (b.files, p') := by
  unfold bnd4Parse at h
  obtain ⟨b9, _, h⟩ := bind_some_inv h
  dsimp only at h
  obtain ⟨⟨header, p1⟩, _, h⟩ := bind_some_inv h
  obtain ⟨⟨files, p2⟩, hfiles, h⟩ := bind_some_inv h
  dsimp only at h
  unfold readBND4Files at hfiles
  split at h
  · obtain ⟨buckets, _, h⟩ := bind_some_inv h
    obtain rfl := Option.some.inj h
    exact ⟨b9 != 0, p1, p2, hfiles⟩
  · obtain ⟨buckets, _, h⟩ := bind_some_inv h
    obtain rfl := Option.some.inj h
    exact ⟨b9 != 0, p1, p2, hfiles⟩

/-- Destructuring the header read of a successful parse: the stored
header comes from `read_bnd4_header` run with the endianness derived
from the peeked byte 9. -/
theorem bnd4Parse_header {bytes : List Nat} {b : BND4}
    (h : bnd4Parse bytes = some b) :
    ∃ b9 p, byteAt bytes 9 = some b9 ∧
      readBND4Header (b9 != 0) bytes 0 = some (b.header, p) := by
  unfold bnd4Parse at h
  obtain ⟨b9, hb9, h⟩ := bind_some_inv h
  dsimp only at h
  obtain ⟨⟨header, p1⟩, hhdr, h⟩ := bind_some_inv h
  obtain ⟨⟨files, p2⟩, _, h⟩ := bind_some_inv h
  dsimp only at h
  split at h
  · obtain ⟨buckets, _, h⟩ := bind_some_inv h
    obtain rfl := Option.some.inj h
    exact ⟨b9, p1, hb9, hhdr⟩
  · obtain ⟨buckets, _, h⟩ := bind_some_inv h
    obtain rfl := Option.some.inj h
    exact ⟨b9, p1, hb9, hhdr⟩

/-- C1: in every successfully parsed BND4 container, each file entry's
optional fields are present exactly as dictated by the effective format
byte (`raw_format` for a big-endian stream, its bit-reversal otherwise):
bit `0x20` selects `uncompressed_size`, bit `0x02` (or the exact value
`0b100`) selects `id`, bit `0x04` or `0x08` selects `name_offset`, and
exactly `0b100` selects the trailing `zero` u32. -/
theorem C1_format_bitfield {decompress : DCX → Option (List Nat)}
    {file : List Nat} {b : BND4}
    (h : bnd4FromBytes decompress file = some b) :
    ∀ f ∈ b.files,
      (f.uncompressed_size.isSome ↔
        (if b.header.big_endian then b.header.raw_format
         else reverse_bits b.header.raw_format) &&& 0b00100000 ≠ 0) ∧
      (f.id.isSome ↔
        ((if b.header.big_endian then b.header.raw_format
          else reverse_bits b.header.raw_format) &&& 0b00000010 ≠ 0 ∨
         (if b.header.big_endian then b.header.raw_format
          else reverse_bits b.header.raw_format) = 0b00000100)) ∧
      (f.name_offset.isSome ↔
        ((if b.header.big_endian then b.header.raw_format
          else reverse_bits b.header.raw_format) &&& 0b00000100 ≠ 0 ∨
         (if b.header.big_endian then b.header.raw_format
          else reverse_bits b.header.raw_format) &&& 0b00001000 ≠ 0)) ∧
      (f.zero.isSome ↔
        (if b.header.big_endian then b.header.raw_format
         else reverse_bits b.header.raw_format) = 0b00000100) := by
  obtain ⟨bytes, hp⟩ := bnd4FromBytes_parse h
  obtain ⟨be, p, p', haux⟩ := bnd4Parse_files hp
  exact readBND4FilesAux_mem
    (fun p f p' hh => (readBND4File_fields hh).2) _ _ _ _ haux

/-- Witness for C1 at the concrete little-endian container whose
effective format byte is `46 = 0x2E` (bits `0x20`, `0x02`, `0x04` and
`0x08` set, not equal to `0b100`). -/
theorem C1_witness :
    exBND4LEFile.uncompressed_size.isSome ∧ exBND4LEFile.id.isSome ∧
    exBND4LEFile.name_offset.isSome ∧ ¬ exBND4LEFile.zero.isSome := by
  have hc := C1_format_bitfield exBND4LE_eval exBND4LEFile (by decide)
  refine ⟨hc.1.mpr (by decide), hc.2.1.mpr (Or.inl (by decide)),
    hc.2.2.1.mpr (Or.inl (by decide)), fun hz => ?_⟩
  exact absurd (hc.2.2.2.mp hz) (by decide)

/-- C9: every file entry of a successfully parsed BND4 container has
`data = Some(vec![])`; the parser never materializes payload bytes. -/
theorem C9_data_always_empty {decompress : DCX → Option (List Nat)}
    {file : List Nat} {b : BND4}
    (h : bnd4FromBytes decompress file = some b) :
    ∀ f ∈ b.files, f.data = some ([] : List Nat) := by
  obtain ⟨bytes, hp⟩ := bnd4FromBytes_parse h
  obtain ⟨be, p, p', haux⟩ := bnd4Parse_files hp
  exact readBND4FilesAux_mem
    (fun p f p' hh => (readBND4File_fields hh).1) _ _ _ _ haux

/-- Witness for C9 at the concrete little-endian container. -/
theorem C9_witness : exBND4LEFile.data = some ([] : List Nat) :=
  C9_data_always_empty exBND4LE_eval exBND4LEFile (by decide)

theorem readBND4HeaderA_pos {data : List Nat} {p : Nat}
    {t : List Nat × Nat × Nat × Nat × Nat × Nat} {p' : Nat}
    (h : readBND4HeaderA data p = some (t, p')) : p' = p + 9 := by
  unfold readBND4HeaderA at h
  obtain ⟨⟨magic, q1⟩, h1, h⟩ := bind_some_inv h
  obtain ⟨⟨a4, q2⟩, h2, h⟩ := bind_some_inv h
  obtain ⟨⟨a5, q3⟩, h3, h⟩ := bind_some_inv h
  obtain ⟨⟨a6, q4⟩, h4, h⟩ := bind_some_inv h
  obtain ⟨⟨a7, q5⟩, h5, h⟩ := bind_some_inv h
  obtain ⟨⟨a8, q6⟩, h6, h⟩ := bind_some_inv h
  have hx := Option.some.inj h
  rw [Prod.mk.injEq] at hx
  have e1 := (readFixedCStr_eq_some h1).2.1
  have e2 := (readU8_eq_some h2).2.2
  have e3 := (readU8_eq_some h3).2.2
  have e4 := (readU8_eq_some h4).2.2
  have e5 := (readU8_eq_some h5).2.2
  have e6 := (readU8_eq_some h6).2.2
  have e7 := hx.2
  omega

theorem readBND4HeaderB_inv {be : Bool} {data : List Nat} {p : Nat}
    {t : Nat × Nat × Nat × Nat × Nat × List Nat} {p' : Nat}
    (h : readBND4HeaderB be data p = some (t, p')) :
    t.1 = data.getD p 0 ∧
    t.2.2.2.1 = (if be then beVal else leVal) ((data.drop (p + 3)).take 4) := by
  unfold readBND4HeaderB at h
  obtain ⟨⟨b9, q1⟩, h1, h⟩ := bind_some_inv h
  obtain ⟨⟨a10, q2⟩, h2, h⟩ := bind_some_inv h
  obtain ⟨⟨a11, q3⟩, h3, h⟩ := bind_some_inv h
  obtain ⟨⟨fc, q4⟩, h4, h⟩ := bind_some_inv h
  obtain ⟨⟨hsz, q5⟩, h5, h⟩ := bind_some_inv h
  obtain ⟨⟨ver, q6⟩, h6, h⟩ := bind_some_inv h
  have hx := Option.some.inj h
  rw [Prod.mk.injEq] at hx
  rw [← hx.1]
  obtain ⟨_, hb2, hb3⟩ := readU8_eq_some h1
  obtain ⟨_, _, hc3⟩ := readU8_eq_some h2
  obtain ⟨_, _, hd3⟩ := readU8_eq_some h3
  obtain ⟨hfc, hfcp, _⟩ := readU32_eq_some h4
  constructor
  · exact hb2.symm
  · have hq3 : q3 = p + 3 := by omega
    rw [hq3] at hfc
    exact hfc

/-- Inversion of `BND4::read_bnd4_header`: the endianness flag is the
byte at relative offset 9 tested against zero, and `file_count` is the
u32 at relative offset 0x0C read under the chosen endianness. -/
theorem readBND4Header_inv {be : Bool} {data : List Nat} {p : Nat}
    {hdr : BND4Header} {p' : Nat}
    (h : readBND4Header be data p = some (hdr, p')) :
    hdr.big_endian = (data.getD (p + 9) 0 != 0) ∧
    hdr.file_count = (if be then beVal else leVal) ((data.drop (p + 12)).take 4) := by
  unfold readBND4Header at h
  obtain ⟨⟨⟨magic, u4, u5, u6, u7, u8⟩, p1⟩, hA, h⟩ := bind_some_inv h
  obtain ⟨⟨⟨b9, u0a, u0b, fc, hsz, ver⟩, p2⟩, hB, h⟩ := bind_some_inv h
  obtain ⟨⟨⟨fhs, fhe, uni, rfmt, ext, u33⟩, p3⟩, hC, h⟩ := bind_some_inv h
  obtain ⟨⟨⟨u34, boff⟩, p4⟩, hD, h⟩ := bind_some_inv h
  dsimp only at h
  split at h
  · have hx := Option.some.inj h
    rw [Prod.mk.injEq] at hx
    rw [← hx.1]
    have hpA := readBND4HeaderA_pos hA
    have hBinv := readBND4HeaderB_inv hB
    have hb : b9 = data.getD (p + 9) 0 := by
      rw [← hpA]
      exact hBinv.1
    have h312 : p1 + 3 = p + 12 := by omega
    have hfc : fc = (if be then beVal else leVal) ((data.drop (p + 12)).take 4) := by
      have h2 := hBinv.2
      rw [h312] at h2
      exact h2
    constructor
    · show (b9 != 0) = (data.getD (p + 9) 0 != 0)
      rw [hb]
    · exact hfc
  · exact absurd h (by simp)

/-- C7: for every non-DCX BND4 input whose byte at offset 9 is 1, the
header is read big-endian (its stored endianness flag is set and the
whole header is what the big-endian header reader returns), and in
particular `file_count` equals the u32 at offset 0x0C of the stream
interpreted big-endian. -/
theorem C7_big_endian_reads {decompress : DCX → Option (List Nat)}
    {file : List Nat} {b : BND4}
    (h : bnd4FromBytes decompress file = some b)
    (hdcx : dcxIs file = false)
    (h9 : byteAt file 9 = some 1) :
    b.header.big_endian = true ∧
    b.header.file_count = beVal ((file.drop 12).take 4) ∧
    ∃ p, readBND4Header true file 0 = some (b.header, p) := by
  rw [bnd4FromBytes_not_dcx hdcx] at h
  obtain ⟨b9, p1, hb9, hhdr⟩ := bnd4Parse_header h
  rw [hb9] at h9
  have hb91 : b9 = 1 := Option.some.inj h9
  subst hb91
  have hhdr' : readBND4Header true file 0 = some (b.header, p1) := hhdr
  have hinv := readBND4Header_inv hhdr'
  simp only [Nat.zero_add] at hinv
  refine ⟨?_, ?_, p1, hhdr'⟩
  · rw [hinv.1]
    have hr : readU8 file 9 = some (1, 10) := by
      unfold readU8
      unfold byteAt at hb9
      rw [hb9]
    have hg := (readU8_eq_some hr).2.1
    rw [hg]
    rfl
  · exact hinv.2

/-- Witness for C7 at the concrete big-endian container (byte 9 is 1,
`file_count` bytes at 0x0C are `[0,0,0,1]`). -/
theorem C7_witness :
    exBND4BEParsed.header.big_endian = true ∧
    exBND4BEParsed.header.file_count = beVal ((exBND4BEBytes.drop 12).take 4) ∧
    ∃ p, readBND4Header true exBND4BEBytes 0 = some (exBND4BEParsed.header, p) :=
  C7_big_endian_reads exBND4BE_eval (by decide) (by decide)

end Dantelion
